import Mathlib

/-!
Verification of the FireX event aggregator (`firexapp/events/event_aggregator.py`)
against its specification, via a shallow embedding of the aggregator in Lean.

Python values flowing through the aggregator (event fields and task-record
fields) are modelled by the inductive `Value`: `nul` is Python `None`,
numbers are modelled as integers (all numeric values the aggregator
manipulates are compared, copied or subtracted; no rounding behaviour is
relied upon), dictionaries are insertion-ordered association lists, exactly
as Python `dict` preserves insertion order.
-/

/-- A Python value as manipulated by the event aggregator. Dictionaries are
insertion-ordered association lists with string keys, mirroring Python dicts
(event payloads and task records are string-keyed throughout the module). -/
inductive Value where
  | nul : Value
  | str : String → Value
  | int : Int → Value
  | bool : Bool → Value
  | list : List Value → Value
  | dict : List (String × Value) → Value
  | vset : List Value → Value
deriving Repr

mutual

/-- Python `==` on values, used by `_deep_merge`'s conflict check and by
`find_data_changes`' value comparisons. `bool` compares equal to the
corresponding `int` (as in Python, where `True == 1`). Nested collections are
compared elementwise in order; Python compares nested dicts and sets
order-insensitively, but every value the aggregator compares in the verified
claims is either a scalar or built in a single canonical order, where the
two notions coincide. Order-insensitive comparison of whole task records
(Python dict `==` at the record level) is `Value.dictBeq` below. -/
def Value.beq : Value → Value → Bool
  | .nul, .nul => true
  | .str a, .str b => a == b
  | .int a, .int b => a == b
  | .bool a, .bool b => a == b
  | .bool a, .int b => (if a then (1 : Int) else 0) == b
  | .int a, .bool b => a == (if b then (1 : Int) else 0)
  | .list a, .list b => Value.listBeq a b
  | .dict a, .dict b => Value.entriesBeq a b
  | .vset a, .vset b => Value.listBeq a b
  | _, _ => false
termination_by structural v _ => v

/-- Elementwise `Value.beq` on two lists. -/
def Value.listBeq : List Value → List Value → Bool
  | [], [] => true
  | x :: xs, y :: ys => Value.beq x y && Value.listBeq xs ys
  | _, _ => false
termination_by structural v _ => v

/-- Elementwise `Value.beq` on two entry lists (keys and values in order). -/
def Value.entriesBeq : List (String × Value) → List (String × Value) → Bool
  | [], [] => true
  | (k, v) :: rest, (k', v') :: rest' =>
      k == k' && Value.beq v v' && Value.entriesBeq rest rest'
  | _, _ => false
termination_by structural v _ => v

end

/-- The (first) entry under key `k` in the dict compares `Value.beq`-equal
to `v`. -/
def Value.dictLookupBeq (k : String) (v : Value) : List (String × Value) → Bool
  | [] => false
  | (k', v') :: rest => if k' = k then Value.beq v v' else Value.dictLookupBeq k v rest

/-- Every entry of the first dict is matched, up to `Value.beq`, by the entry
under the same key in the second dict. -/
def Value.dictSubBeq : List (String × Value) → List (String × Value) → Bool
  | [], _ => true
  | (k, v) :: rest, b => Value.dictLookupBeq k v b && Value.dictSubBeq rest b

/-- Python `==` on dicts: insertion order is ignored; equal lengths plus
containment of the first in the second (equality for key-nodup dicts, which
is what Python dicts are by construction). -/
def Value.dictBeq (a b : List (String × Value)) : Bool :=
  a.length == b.length && Value.dictSubBeq a b

/-- Membership in a set, up to `Value.beq`. -/
def Value.setMemBeq : Value → List Value → Bool
  | _, [] => false
  | y, x :: xs => Value.beq x y || Value.setMemBeq y xs

/-- Python truthiness (`bool(v)`), used by `not event['uuid']`,
`not self.root_uuid`, `not incomplete_task.get(...)` and `x or y`. -/
def Value.truthy : Value → Bool
  | .nul => false
  | .str s => !s.isEmpty
  | .int n => n != 0
  | .bool b => b
  | .list xs => !xs.isEmpty
  | .dict xs => !xs.isEmpty
  | .vset xs => !xs.isEmpty

/-- Extract an integer, with a default for non-integer values. Numeric task
fields (`first_started`, timestamps) are integers in this model. -/
def Value.toIntD : Value → Int → Int
  | .int n, _ => n
  | _, d => d

abbrev TaskDict := List (String × Value)

/-- `k in d` / `d[k]` for an insertion-ordered dict. -/
def dictGet (d : TaskDict) (k : String) : Option Value :=
  match d with
  | [] => none
  | (k', v) :: rest => if k' = k then some v else dictGet rest k

/-- `d.get(k, default)`. -/
def dictGetD (d : TaskDict) (k : String) (dflt : Value) : Value :=
  (dictGet d k).getD dflt

/-- `k in d`. -/
def hasKey (d : TaskDict) (k : String) : Bool :=
  (dictGet d k).isSome

/-- `d[k] = v`: replaces in place (Python dicts keep the original position of
an existing key), appends otherwise. -/
def setKey (d : TaskDict) (k : String) (v : Value) : TaskDict :=
  match d with
  | [] => [(k, v)]
  | (k', v') :: rest => if k' = k then (k', v) :: rest else (k', v') :: setKey rest k v

/-- `d.update(other)`: each key of `other`, in order, is written into `d`. -/
def dictUpdate (d other : TaskDict) : TaskDict :=
  other.foldl (fun acc kv => setKey acc kv.1 kv.2) d

/-! ## Run-state vocabulary and constants

`REVOKED_EVENT_TYPE` is a literal of `event_aggregator.py`. The remaining
constants live in `firexapp/events/model.py` and `firexkit`, outside the
aggregator module, and are modelled from the specification. -/

def REVOKED_EVENT_TYPE : String := "task-revoked"

/-- Modelled from the spec: `firex-revoke-complete` is named in §6 as "the
framework's explicit revoke-completed event type name"
(`FIREX_REVOKE_COMPLETE_EVENT_TYPE`, imported from `firexkit.task`). -/
def FIREX_REVOKE_COMPLETE_EVENT_TYPE : String := "firex-revoke-complete"

/-- Modelled from the spec: `INCOMPLETE_RUNSTATES` of
`firexapp/events/model.py` (not under `src/`). The spec (§4.G) fixes only
the structure (`ALL_RUNSTATES = INCOMPLETE_RUNSTATES ⊎ COMPLETE_RUNSTATES`);
the membership below is the minimal one consistent with the spec's seed
scenarios (`task-started` is a non-terminal runstate). -/
def INCOMPLETE_RUNSTATES : List String :=
  ["task-received", "task-started", "task-blocked", "task-unblocked"]

/-- Modelled from the spec: `COMPLETE_RUNSTATES` of
`firexapp/events/model.py` (not under `src/`); terminal runstates per the
spec's seed scenarios (`task-succeeded` is terminal, revoked is terminal). -/
def COMPLETE_RUNSTATES : List String :=
  ["task-succeeded", "task-failed", "task-revoked"]

/-- Modelled from the spec: `ALL_RUNSTATES` (§4.G:
`ALL_RUNSTATES = INCOMPLETE_RUNSTATES ⊎ COMPLETE_RUNSTATES`). -/
def ALL_RUNSTATES : List String := INCOMPLETE_RUNSTATES ++ COMPLETE_RUNSTATES

/-- `RUN_STATE_EVENT_TYPES = list(ALL_RUNSTATES.keys()) + [FIREX_REVOKE_COMPLETE_EVENT_TYPE]`. -/
def RUN_STATE_EVENT_TYPES : List String :=
  ALL_RUNSTATES ++ [FIREX_REVOKE_COMPLETE_EVENT_TYPE]

/-- `event_type_to_task_state`: both Celery and FireX revoked events map to
the same canonical state. -/
def event_type_to_task_state (event_type : String) : String :=
  if event_type = FIREX_REVOKE_COMPLETE_EVENT_TYPE then REVOKED_EVENT_TYPE
  else event_type

/-! ## Field policy registry

`FIELD_CONFIG` of the source, with the per-field option dicts re-expressed
as a record of three flags and an optional transform. The string field names
are the values of the `TaskColumn` enum of `firexapp/events/model.py` (not
under `src/`); they are modelled from the spec's authoritative field table
(§6), which lists the canonical names. -/

structure FieldSpec where
  copy_celery : Bool
  aggregate_merge : Bool
  aggregate_keep_initial : Bool
  transform_celery : Option (TaskDict → TaskDict)

def copyOnly : FieldSpec := ⟨true, false, false, none⟩

def copyAndTransform (t : TaskDict → TaskDict) : FieldSpec := ⟨true, false, false, some t⟩

def transformOnly (t : TaskDict → TaskDict) : FieldSpec := ⟨false, false, false, some t⟩

def mergeOnly : FieldSpec := ⟨false, true, false, none⟩

def keepInitialOnly : FieldSpec := ⟨false, false, true, none⟩

/-- `s.split('.')[-1]`. -/
def lastSegment (s : String) : String := (s.splitOn ".").getLastD ""

/-- The `transform_celery` lambda of `FIELD_CONFIG['type']`: for run-state
event types, synthesize `state` and a one-entry `states` list from the
canonicalized type. Invoked only when `type` is present in the event. -/
def typeTransform (e : TaskDict) : TaskDict :=
  match dictGetD e "type" Value.nul with
  | .str t =>
      if RUN_STATE_EVENT_TYPES.contains t then
        [("state", .str (event_type_to_task_state t)),
         ("states", .list [.dict [("state", .str (event_type_to_task_state t)),
                                  ("timestamp", dictGetD e "timestamp" Value.nul)]])]
      else []
  | _ => []

/-- The `transform_celery` lambda of `FIELD_CONFIG['long_name']`. A
non-string `long_name` raises in Python; modelled as the empty update,
never exercised by string-valued events. -/
def longNameTransform (e : TaskDict) : TaskDict :=
  match dictGetD e "long_name" Value.nul with
  | .str s => [("name", .str (lastSegment s))]
  | _ => []

/-- The `transform_celery` lambda of `FIELD_CONFIG['name']`. -/
def nameTransform (e : TaskDict) : TaskDict :=
  match dictGetD e "name" Value.nul with
  | .str s => [("name", .str (lastSegment s)), ("long_name", .str s)]
  | _ => []

/-- The `transform_celery` lambda of `FIELD_CONFIG['url']`. -/
def urlTransform (e : TaskDict) : TaskDict :=
  match dictGet e "url" with
  | some v => [("logs_url", v)]
  | none => []

/-- The `transform_celery` lambda of `FIELD_CONFIG['log_filepath']`. -/
def logFilepathTransform (e : TaskDict) : TaskDict :=
  match dictGet e "log_filepath" with
  | some v => [("logs_url", v)]
  | none => []

/-- The `transform_celery` lambda of `FIELD_CONFIG['local_received']`:
`first_started` is seeded from `local_received`. -/
def localReceivedTransform (e : TaskDict) : TaskDict :=
  match dictGet e "local_received" with
  | some v => [("first_started", v)]
  | none => []

/-- `FIELD_CONFIG`, in the source's literal (= iteration) order. -/
def FIELD_CONFIG : List (String × FieldSpec) :=
  [("uuid", copyOnly),
   ("hostname", copyOnly),
   ("parent_id", copyOnly),
   ("type", copyAndTransform typeTransform),
   ("retries", copyOnly),
   ("bound_args", copyOnly),
   ("actual_runtime", copyOnly),
   ("utcoffset", copyOnly),
   ("default_bound_args", copyOnly),
   ("from_plugin", copyOnly),
   ("results", copyOnly),
   ("traceback", copyOnly),
   ("exception", copyOnly),
   ("long_name", copyAndTransform longNameTransform),
   ("name", transformOnly nameTransform),
   ("chain_depth", copyOnly),
   ("first_started", keepInitialOnly),
   ("exception_cause_uuid", copyOnly),
   ("states", mergeOnly),
   ("url", transformOnly urlTransform),
   ("log_filepath", transformOnly logFilepathTransform),
   ("local_received", transformOnly localReceivedTransform)]

structure EventAggregatorConfig where
  copy_fields : List String
  merge_fields : List String
  keep_initial_fields : List String
  field_to_celery_transforms : List (String × (TaskDict → TaskDict))

/-- `_get_keys_with_true`, with the option dict replaced by a flag
projection. -/
def _get_keys_with_true (input_dict : List (String × FieldSpec))
    (proj : FieldSpec → Bool) : List String :=
  (input_dict.filter (fun kv => proj kv.2)).map Prod.fst

def event_aggregator_from_field_spec (field_spec : List (String × FieldSpec)) :
    EventAggregatorConfig :=
  ⟨_get_keys_with_true field_spec (·.copy_celery),
   _get_keys_with_true field_spec (·.aggregate_merge),
   _get_keys_with_true field_spec (·.aggregate_keep_initial),
   field_spec.filterMap (fun kv => kv.2.transform_celery.map (fun t => (kv.1, t)))⟩

def DEFAULT_AGGREGATOR_CONFIG : EventAggregatorConfig :=
  event_aggregator_from_field_spec FIELD_CONFIG

/-! ## Deep merge -/

/-- Python `set.union`: the left operand's elements, then the right's that
are not already present. -/
def setUnion (a b : List Value) : List Value :=
  a ++ b.filter (fun y => !Value.setMemBeq y a)

mutual

/-- The body of `_deep_merge`'s loop over `dict2`, accumulating `result`.
The lookup of `v1` is in `dict1`, exactly as in the source (`result` is only
written). -/
def deepMergeGo (dict1 result : TaskDict) : TaskDict → TaskDict
  | [] => result
  | (d2_key, v2) :: rest =>
      let result' :=
        match dictGet dict1 d2_key with
        | some v1 => setKey result d2_key (deepMergeValue v1 v2)
        | none => setKey result d2_key v2
      deepMergeGo dict1 result' rest
termination_by structural l => l

/-- The per-key dispatch of `_deep_merge` (`_both_instance` chain): dicts
recurse (`result = dict(dict1)` then loop over `dict2`), lists concatenate,
sets union, equal scalars keep either, and any other conflict is overwritten
by `dict2`'s value. -/
def deepMergeValue : Value → Value → Value
  | .dict a, .dict b => .dict (deepMergeGo a a b)
  | .list a, .list b => .list (a ++ b)
  | .vset a, .vset b => .vset (setUnion a b)
  | v1, v2 => if Value.beq v1 v2 then v1 else v2
termination_by structural v1 v2 => v2

end

/-- `_deep_merge(dict1, dict2)`: `result = dict(dict1)`, then each key of
`dict2`, in order, is merged into `result` (`deepMergeGo`). -/
def _deep_merge (dict1 dict2 : TaskDict) : TaskDict :=
  deepMergeGo dict1 dict1 dict2

/-- `_deep_merge_keys`: deep merge of both dicts restricted to `keys`. -/
def _deep_merge_keys (dict1 dict2 : TaskDict) (keys : List String) : TaskDict :=
  _deep_merge (dict1.filter (fun kv => keys.contains kv.1))
              (dict2.filter (fun kv => keys.contains kv.1))

/-! ## Event normalizer and change detector -/

/-- The `new_task_data` accumulation inside `get_new_event_data`: copy the
`copy_fields` present in the event, then apply each transform whose trigger
field is present, later transform outputs overwriting earlier data. -/
def compute_new_task_data (event : TaskDict) (copy_fields : List String)
    (field_to_celery_transforms : List (String × (TaskDict → TaskDict))) : TaskDict :=
  let new_task_data := copy_fields.foldl
    (fun acc field =>
      match dictGet event field with
      | some v => setKey acc field v
      | none => acc) []
  field_to_celery_transforms.foldl
    (fun acc ft => if hasKey event ft.1 then dictUpdate acc (ft.2 event) else acc)
    new_task_data

/-- `get_new_event_data`: returns `{event['uuid']: new_task_data}`. -/
def get_new_event_data (event : TaskDict) (copy_fields : List String)
    (field_to_celery_transforms : List (String × (TaskDict → TaskDict))) :
    List (Value × TaskDict) :=
  [(dictGetD event "uuid" Value.nul,
    compute_new_task_data event copy_fields field_to_celery_transforms)]

/-- `find_data_changes(task, new_task_data, keep_initial_fields, merge_fields)`:
the per-event delta against an existing task record. -/
def find_data_changes (task new_task_data : TaskDict)
    (keep_initial_fields merge_fields : List String) : TaskDict :=
  let no_overwrite_fields := keep_initial_fields ++ merge_fields
  let override_dict := new_task_data.filter (fun kv => !no_overwrite_fields.contains kv.1)
  let changed_data := override_dict.foldl
    (fun cd kv =>
      if !hasKey task kv.1 || !Value.beq (dictGetD task kv.1 Value.nul) kv.2 then
        setKey cd kv.1 kv.2
      else cd) []
  let changed_data := keep_initial_fields.foldl
    (fun cd k =>
      if hasKey new_task_data k && !hasKey task k then
        setKey cd k (dictGetD new_task_data k Value.nul)
      else cd) changed_data
  let merged_values := _deep_merge_keys task new_task_data merge_fields
  merged_values.foldl
    (fun cd kv =>
      if !hasKey task kv.1 || !Value.beq (dictGetD task kv.1 Value.nul) kv.2 then
        setKey cd kv.1 kv.2
      else cd) changed_data

/-! ## Aggregator core

`FireXEventAggregator` with its in-memory store. Mutation is modelled by
explicit state passing: every operation that writes returns the new `Agg`.
The store keys tasks by the event's uuid value, with Python `==` (dict key)
semantics. -/

structure Agg where
  new_task_num : Int
  root_uuid : Value
  tasks_by_uuid : List (Value × TaskDict)

/-- `FireXEventAggregator()`: `new_task_num = 1`, `root_uuid = None`,
empty store. -/
def initAgg : Agg := ⟨1, Value.nul, []⟩

/-- `task_uuid in self.tasks_by_uuid` / `self.tasks_by_uuid.get(task_uuid)`. -/
def tasksGet (ts : List (Value × TaskDict)) (u : Value) : Option TaskDict :=
  match ts with
  | [] => none
  | (k, t) :: rest => if Value.beq k u then some t else tasksGet rest u

/-- Overwrite the record stored under key `u` (the model of mutating the
stored dict object in place). -/
def tasksSet (ts : List (Value × TaskDict)) (u : Value) (t : TaskDict) :
    List (Value × TaskDict) :=
  match ts with
  | [] => []
  | (k, t') :: rest => if Value.beq k u then (k, t) :: rest else (k, t') :: tasksSet rest u t

/-- `FireXEventAggregator._task_exists`. -/
def _task_exists (a : Agg) (task_uuid : Value) : Bool :=
  if !task_uuid.truthy then false
  else (tasksGet a.tasks_by_uuid task_uuid).isSome

/-- `FireXEventAggregator._get_task`. -/
def _get_task (a : Agg) (task_uuid : Value) : Option TaskDict :=
  tasksGet a.tasks_by_uuid task_uuid

/-- `FireXEventAggregator._get_incomplete_tasks`: tasks whose
`actual_runtime` is `None`/absent or whose `state` is a non-terminal
runstate. -/
def _get_incomplete_tasks (a : Agg) : List TaskDict :=
  (a.tasks_by_uuid.map Prod.snd).filter (fun task =>
    (match dictGetD task "actual_runtime" Value.nul with
     | .nul => true
     | _ => false)
    ||
    (match dictGetD task "state" Value.nul with
     | .str s => INCOMPLETE_RUNSTATES.contains s
     | _ => false))

/-- `AbstractFireXEventAggregator._get_or_create_task`: insert
`{uuid, task_num}` for a fresh uuid (incrementing `new_task_num` after the
insert), otherwise fetch the stored record. Returns the record, the
`is_new` flag, and the (possibly grown) aggregator state. -/
def _get_or_create_task (a : Agg) (task_uuid : Value) : TaskDict × Bool × Agg :=
  if !(_task_exists a task_uuid) then
    let task : TaskDict := [("uuid", task_uuid), ("task_num", Value.int a.new_task_num)]
    (task, true,
     ⟨a.new_task_num + 1, a.root_uuid, a.tasks_by_uuid ++ [(task_uuid, task)]⟩)
  else
    ((tasksGet a.tasks_by_uuid task_uuid).getD [], false, a)

/-- `AbstractFireXEventAggregator._update_task`:
`full_task.update(changed_data)` on the stored record. -/
def _update_task (a : Agg) (task_uuid : Value) (full_task changed_data : TaskDict) : Agg :=
  ⟨a.new_task_num, a.root_uuid,
   tasksSet a.tasks_by_uuid task_uuid (dictUpdate full_task changed_data)⟩

/-- `AbstractFireXEventAggregator._aggregate_event`. Returns the per-uuid
change-set dict and the new aggregator state. -/
def _aggregate_event (cfg : EventAggregatorConfig) (a : Agg) (event : TaskDict) :
    List (Value × TaskDict) × Agg :=
  match dictGet event "uuid" with
  | none => ([], a)
  | some u =>
    if !u.truthy then ([], a)
    else if !(_task_exists a u)
         && Value.beq (dictGetD event "type" (.str "")) (.str REVOKED_EVENT_TYPE) then
      ([], a)
    else
      -- `event.get('parent_id', '__no_match') is None and self.root_uuid is None`
      let parent_is_none : Bool :=
        match dictGet event "parent_id" with
        | some .nul => true
        | _ => false
      let root_is_none : Bool :=
        match a.root_uuid with
        | .nul => true
        | _ => false
      let a := if parent_is_none && root_is_none then
                 Agg.mk a.new_task_num u a.tasks_by_uuid
               else a
      let new_data_by_task_uuid :=
        get_new_event_data event cfg.copy_fields cfg.field_to_celery_transforms
      new_data_by_task_uuid.foldl
        (fun (acc : List (Value × TaskDict) × Agg) kv =>
          let task_uuid := kv.1
          let new_task_data := kv.2
          let gcr := _get_or_create_task acc.2 task_uuid
          let task := gcr.1
          let is_new_task := gcr.2.1
          let a' := gcr.2.2
          let changed_data :=
            find_data_changes task new_task_data cfg.keep_initial_fields cfg.merge_fields
          let a'' := if !changed_data.isEmpty then
                       _update_task a' task_uuid task changed_data
                     else a'
          -- `dict(task)` is copied after `_update_task` mutated the record.
          let task_after := dictUpdate task changed_data
          (acc.1 ++ [(task_uuid, if is_new_task then task_after else changed_data)], a''))
        ([], a)

/-- `AbstractFireXEventAggregator.aggregate_events`: fold `_aggregate_event`
over the stream, merging the per-event change-sets per uuid by dict update. -/
def aggregate_events (cfg : EventAggregatorConfig) (a : Agg) (events : List TaskDict) :
    List (Value × TaskDict) × Agg :=
  events.foldl
    (fun (acc : List (Value × TaskDict) × Agg) e =>
      let r := _aggregate_event cfg acc.2 e
      let merged := r.1.foldl
        (fun (m : List (Value × TaskDict)) kv =>
          match tasksGet m kv.1 with
          | some cur => tasksSet m kv.1 (dictUpdate cur kv.2)
          | none => m ++ [(kv.1, dictUpdate [] kv.2)])
        acc.1
      (merged, r.2))
    ([], a)

/-- `AbstractFireXEventAggregator.is_root_complete`. -/
def is_root_complete (a : Agg) : Bool :=
  if !a.root_uuid.truthy || !(_task_exists a a.root_uuid) then false
  else
    match dictGetD ((_get_task a a.root_uuid).getD []) "state" Value.nul with
    | .str s => COMPLETE_RUNSTATES.contains s
    | _ => false

/-- `AbstractFireXEventAggregator.are_all_tasks_complete`. -/
def are_all_tasks_complete (a : Agg) : Bool :=
  if !is_root_complete a then false
  else (_get_incomplete_tasks a).length == 0

/-- `AbstractFireXEventAggregator.generate_incomplete_events`, with the
clock (`datetime.now().timestamp()`) passed explicitly. Synthesizes a
terminal event per incomplete task; does not touch the store. -/
def generate_incomplete_events (a : Agg) (now : Int) : List TaskDict :=
  (_get_incomplete_tasks a).map (fun incomplete_task =>
    let event_type : String :=
      match dictGetD incomplete_task "state" Value.nul with
      | .str s => if COMPLETE_RUNSTATES.contains s then "task-completed" else "task-incomplete"
      | _ => "task-incomplete"
    let new_event : TaskDict :=
      [("uuid", dictGetD incomplete_task "uuid" Value.nul), ("type", Value.str event_type)]
    if !(dictGetD incomplete_task "actual_runtime" Value.nul).truthy then
      let fs := dictGetD incomplete_task "first_started" Value.nul
      let task_runtime : Int := now - (if fs.truthy then fs.toIntD now else now)
      setKey new_event "actual_runtime" (Value.int task_runtime)
    else new_event)

/-! ## Dictionary lemmas -/

theorem dictGet_setKey (d : TaskDict) (k : String) (v : Value) (q : String) :
    dictGet (setKey d k v) q = if k = q then some v else dictGet d q := by
  induction d with
  | nil => simp [setKey, dictGet]
  | cons kv rest ih =>
      obtain ⟨k0, v0⟩ := kv
      by_cases h0 : k0 = k
      · subst h0
        by_cases hq : k0 = q <;> simp [setKey, dictGet, hq]
      · by_cases hq : k0 = q
        · subst hq
          have : ¬ k = k0 := fun h => h0 h.symm
          simp [setKey, dictGet, h0, this]
        · simp [setKey, dictGet, h0, hq, ih]

theorem dictGet_eq_none_of_not_mem_keys (d : TaskDict) (q : String)
    (h : q ∉ d.map Prod.fst) : dictGet d q = none := by
  induction d with
  | nil => simp [dictGet]
  | cons kv rest ih =>
      simp only [List.map_cons, List.mem_cons] at h
      push_neg at h
      have hne : kv.1 ≠ q := fun he => h.1 he.symm
      obtain ⟨k0, v0⟩ := kv
      simp only [dictGet]
      simp only at hne
      simp [hne, ih h.2]

theorem mem_keys_of_dictGet_isSome (d : TaskDict) (q : String)
    (h : (dictGet d q).isSome = true) : q ∈ d.map Prod.fst := by
  by_contra hmem
  rw [dictGet_eq_none_of_not_mem_keys d q hmem] at h
  simp at h

theorem dictGet_dictUpdate_none (d u : TaskDict) (q : String)
    (h : dictGet u q = none) : dictGet (dictUpdate d u) q = dictGet d q := by
  induction u generalizing d with
  | nil => simp [dictUpdate]
  | cons kv rest ih =>
      obtain ⟨k0, v0⟩ := kv
      simp only [dictGet] at h
      by_cases hk : k0 = q
      · simp [hk] at h
      · simp only [hk, if_false] at h
        show dictGet (dictUpdate (setKey d k0 v0) rest) q = dictGet d q
        rw [ih (setKey d k0 v0) h, dictGet_setKey, if_neg hk]

def NodupKeys (d : TaskDict) : Prop := (d.map Prod.fst).Nodup

theorem dictGet_dictUpdate_some (d u : TaskDict) (q : String) (v : Value)
    (hnd : NodupKeys u) (h : dictGet u q = some v) :
    dictGet (dictUpdate d u) q = some v := by
  induction u generalizing d with
  | nil => simp [dictGet] at h
  | cons kv rest ih =>
      obtain ⟨k0, v0⟩ := kv
      simp only [dictGet] at h
      unfold NodupKeys at hnd
      simp only [List.map_cons, List.nodup_cons] at hnd
      show dictGet (dictUpdate (setKey d k0 v0) rest) q = some v
      by_cases hk : k0 = q
      · simp only [hk, if_true] at h
        have hrest : dictGet rest q = none := by
          apply dictGet_eq_none_of_not_mem_keys
          intro hmem
          exact hnd.1 (by rw [hk]; exact hmem)
        rw [dictGet_dictUpdate_none _ _ _ hrest, dictGet_setKey, if_pos hk]
        exact h
      · simp only [hk, if_false] at h
        exact ih (setKey d k0 v0) hnd.2 h

theorem mem_keys_setKey (d : TaskDict) (k : String) (v : Value) (q : String)
    (h : q ∈ (setKey d k v).map Prod.fst) : q ∈ d.map Prod.fst ∨ q = k := by
  induction d with
  | nil => simpa [setKey] using h
  | cons kv rest ih =>
      obtain ⟨k0, v0⟩ := kv
      by_cases h0 : k0 = k
      · simp only [setKey, h0, if_true] at h
        simp only [List.map_cons, List.mem_cons] at h ⊢
        rcases h with h | h
        · exact Or.inr h
        · exact Or.inl (Or.inr h)
      · simp only [setKey, h0, if_false, List.map_cons, List.mem_cons] at h
        simp only [List.map_cons, List.mem_cons]
        rcases h with h | h
        · exact Or.inl (Or.inl h)
        · rcases ih h with h' | h'
          · exact Or.inl (Or.inr h')
          · exact Or.inr h'

theorem nodupKeys_setKey (d : TaskDict) (k : String) (v : Value)
    (h : NodupKeys d) : NodupKeys (setKey d k v) := by
  induction d with
  | nil => simp [setKey, NodupKeys]
  | cons kv rest ih =>
      obtain ⟨k0, v0⟩ := kv
      unfold NodupKeys at h ⊢
      simp only [List.map_cons, List.nodup_cons] at h
      by_cases h0 : k0 = k
      · simp only [setKey, h0, if_true, List.map_cons, List.nodup_cons]
        exact ⟨by simpa [h0] using h.1, h.2⟩
      · simp only [setKey, h0, if_false, List.map_cons, List.nodup_cons]
        refine ⟨fun hmem => ?_, ih h.2⟩
        rcases mem_keys_setKey rest k v k0 hmem with h' | h'
        · exact h.1 h'
        · exact h0 h'

theorem foldl_invariant {α β : Type} (P : β → Prop) (step : β → α → β)
    (hstep : ∀ b a, P b → P (step b a)) :
    ∀ (l : List α) (init : β), P init → P (l.foldl step init) := by
  intro l
  induction l with
  | nil => intro init h; simpa using h
  | cons x xs ih => intro init h; exact ih (step init x) (hstep init x h)

/-! ## Store lemmas -/

theorem tasksSet_length (ts : List (Value × TaskDict)) (u : Value) (t : TaskDict) :
    (tasksSet ts u t).length = ts.length := by
  induction ts with
  | nil => rfl
  | cons kv rest ih =>
      obtain ⟨k0, t0⟩ := kv
      by_cases hb : Value.beq k0 u <;> simp [tasksSet, hb, ih]

theorem tasksGet_isSome_tasksSet (ts : List (Value × TaskDict)) (u : Value)
    (t : TaskDict) (w : Value) :
    (tasksGet (tasksSet ts u t) w).isSome = (tasksGet ts w).isSome := by
  induction ts with
  | nil => rfl
  | cons kv rest ih =>
      obtain ⟨k0, t0⟩ := kv
      by_cases hb : Value.beq k0 u
      · by_cases hw : Value.beq k0 w <;> simp [tasksSet, tasksGet, hb, hw]
      · by_cases hw : Value.beq k0 w <;> simp [tasksSet, tasksGet, hb, hw, ih]

theorem tasksGet_append_isSome (ts : List (Value × TaskDict)) (u : Value)
    (t : TaskDict) (w : Value)
    (h : (tasksGet (ts ++ [(u, t)]) w).isSome = true) :
    (tasksGet ts w).isSome = true ∨ Value.beq u w = true := by
  induction ts with
  | nil =>
      simp only [List.nil_append, tasksGet] at h
      by_cases hb : Value.beq u w
      · exact Or.inr hb
      · simp [tasksGet, hb] at h
  | cons kv rest ih =>
      obtain ⟨k0, t0⟩ := kv
      by_cases hw : Value.beq k0 w
      · simp [tasksGet, hw]
      · simp only [List.cons_append, tasksGet, hw, if_false] at h
        rcases ih h with h' | h'
        · left; simp [tasksGet, hw, h']
        · exact Or.inr h'

theorem tasksGet_of_append_ne (ts : List (Value × TaskDict)) (u : Value)
    (t : TaskDict) (w : Value) (h : Value.beq u w = false) :
    tasksGet (ts ++ [(u, t)]) w = tasksGet ts w := by
  induction ts with
  | nil => simp [tasksGet, h]
  | cons kv rest ih =>
      obtain ⟨k0, t0⟩ := kv
      by_cases hw : Value.beq k0 w <;> simp [tasksGet, hw, ih]

/-- The store entries after `tasksSet ts u (dictUpdate (tasksGet ts u) cd)`
(the shape produced by `_update_task`): each position either keeps its record
or, at the position of the first match for `u`, gets that same record updated
by `cd`. Any positionwise relation `P` that is reflexive and compatible with
updating the matched record therefore transports. -/
theorem tasksSet_entryRel (P : TaskDict → TaskDict → Prop)
    (hrefl : ∀ t, P t t) (cd : TaskDict) :
    ∀ (ts : List (Value × TaskDict)) (u : Value),
    P ((tasksGet ts u).getD []) (dictUpdate ((tasksGet ts u).getD []) cd) →
    ∀ i t, (ts.map Prod.snd).get? i = some t →
    ∃ t', ((tasksSet ts u (dictUpdate ((tasksGet ts u).getD []) cd)).map
             Prod.snd).get? i = some t'
          ∧ P t t' := by
  intro ts
  induction ts with
  | nil => intro u _ i t ht; simp at ht
  | cons kv rest ih =>
      intro u hmatch i t ht
      obtain ⟨k0, t0⟩ := kv
      by_cases hb : Value.beq k0 u = true
      · have hset : tasksSet ((k0, t0) :: rest) u
              (dictUpdate ((tasksGet ((k0, t0) :: rest) u).getD []) cd)
            = (k0, dictUpdate t0 cd) :: rest := by
          simp [tasksSet, tasksGet, hb]
        rw [hset]
        have hm : P t0 (dictUpdate t0 cd) := by
          simpa [tasksGet, hb] using hmatch
        cases i with
        | zero =>
            refine ⟨dictUpdate t0 cd, by simp, ?_⟩
            have h0 : t0 = t := by simpa using ht
            rw [← h0]; exact hm
        | succ j =>
            refine ⟨t, ?_, hrefl t⟩
            simpa using ht
      · have hget : tasksGet ((k0, t0) :: rest) u = tasksGet rest u := by
          simp [tasksGet, hb]
        have hset : tasksSet ((k0, t0) :: rest) u
              (dictUpdate ((tasksGet ((k0, t0) :: rest) u).getD []) cd)
            = (k0, t0) :: tasksSet rest u
                (dictUpdate ((tasksGet rest u).getD []) cd) := by
          rw [hget]; simp [tasksSet, hb]
        rw [hset]
        rw [hget] at hmatch
        cases i with
        | zero =>
            refine ⟨t0, by simp, ?_⟩
            have h0 : t0 = t := by simpa using ht
            rw [← h0]; exact hrefl t0
        | succ j =>
            have ht' : (rest.map Prod.snd).get? j = some t := by simpa using ht
            obtain ⟨t', h1, h2⟩ := ih u hmatch j t ht'
            exact ⟨t', by simpa using h1, h2⟩

/-- `tasksSet` on a key with no `Value.beq` match leaves the store unchanged
(relevant only for uuid values on which `Value.beq` is not reflexive, which
Python's hashable uuid keys cannot produce; kept for totality). -/
theorem tasksSet_of_none (ts : List (Value × TaskDict)) (u : Value) (t : TaskDict)
    (h : tasksGet ts u = none) : tasksSet ts u t = ts := by
  induction ts with
  | nil => rfl
  | cons kv rest ih =>
      obtain ⟨k0, t0⟩ := kv
      by_cases hb : Value.beq k0 u
      · simp [tasksGet, hb] at h
      · simp only [tasksGet, hb, if_false] at h
        simp [tasksSet, hb, ih h]

/-- The state after `aggregate_events` is the plain fold of
`_aggregate_event` states; the change-set accumulator does not influence it. -/
theorem aggregate_events_snd (cfg : EventAggregatorConfig) (events : List TaskDict) :
    ∀ (a : Agg) (acc : List (Value × TaskDict)),
    (events.foldl
      (fun (acc : List (Value × TaskDict) × Agg) e =>
        let r := _aggregate_event cfg acc.2 e
        let merged := r.1.foldl
          (fun (m : List (Value × TaskDict)) kv =>
            match tasksGet m kv.1 with
            | some cur => tasksSet m kv.1 (dictUpdate cur kv.2)
            | none => m ++ [(kv.1, dictUpdate [] kv.2)])
          acc.1
        (merged, r.2))
      (acc, a)).2
    = events.foldl (fun s e => (_aggregate_event cfg s e).2) a := by
  induction events with
  | nil => intro a acc; rfl
  | cons e rest ih => intro a acc; exact ih _ _

theorem aggregate_events_state (cfg : EventAggregatorConfig) (a : Agg)
    (events : List TaskDict) :
    (aggregate_events cfg a events).2
      = events.foldl (fun s e => (_aggregate_event cfg s e).2) a :=
  aggregate_events_snd cfg events a []

/-! ## Evaluation lemmas for `_aggregate_event` -/

/-- The root uuid after an accepted event: set to the event's uuid when the
event carries an explicitly-null `parent_id` and no root is known yet. -/
def rootAfter (a : Agg) (e : TaskDict) (u : Value) : Value :=
  if (match dictGet e "parent_id" with
      | some .nul => true
      | _ => false)
     && (match a.root_uuid with
         | .nul => true
         | _ => false) then u else a.root_uuid

theorem aggregate_event_reject (cfg : EventAggregatorConfig) (a : Agg) (e : TaskDict)
    (h : dictGet e "uuid" = none
       ∨ (∃ u, dictGet e "uuid" = some u ∧ u.truthy = false)
       ∨ (∃ u, dictGet e "uuid" = some u ∧ _task_exists a u = false
            ∧ Value.beq (dictGetD e "type" (.str "")) (.str REVOKED_EVENT_TYPE) = true)) :
    _aggregate_event cfg a e = ([], a) := by
  rcases h with h | ⟨u, hu, ht⟩ | ⟨u, hu, hex, hty⟩
  · unfold _aggregate_event
    rw [h]
  · unfold _aggregate_event
    rw [hu]
    simp [ht]
  · unfold _aggregate_event
    rw [hu]
    by_cases ht : u.truthy = true
    · simp [ht, hex, hty]
    · simp [Bool.not_eq_true] at ht
      simp [ht]

theorem aggregate_event_existing (cfg : EventAggregatorConfig) (a : Agg) (e : TaskDict)
    (u : Value) (hu : dictGet e "uuid" = some u) (ht : u.truthy = true)
    (hex : _task_exists a u = true) :
    _aggregate_event cfg a e
      = ([(u, find_data_changes ((tasksGet a.tasks_by_uuid u).getD [])
               (compute_new_task_data e cfg.copy_fields cfg.field_to_celery_transforms)
               cfg.keep_initial_fields cfg.merge_fields)],
         ⟨a.new_task_num, rootAfter a e u,
          (fun cd =>
            if cd.isEmpty then a.tasks_by_uuid
            else tasksSet a.tasks_by_uuid u
              (dictUpdate ((tasksGet a.tasks_by_uuid u).getD []) cd))
          (find_data_changes ((tasksGet a.tasks_by_uuid u).getD [])
            (compute_new_task_data e cfg.copy_fields cfg.field_to_celery_transforms)
            cfg.keep_initial_fields cfg.merge_fields)⟩) := by
  have huD : dictGetD e "uuid" Value.nul = u := by
    unfold dictGetD; rw [hu]; rfl
  have hts : (tasksGet a.tasks_by_uuid u).isSome = true := by
    unfold _task_exists at hex
    rw [ht] at hex
    simpa using hex
  unfold _aggregate_event
  rw [hu]
  by_cases hr : ((match dictGet e "parent_id" with
      | some .nul => true
      | _ => false)
     && (match a.root_uuid with
         | .nul => true
         | _ => false)) = true
  all_goals
    cases hcd : (find_data_changes ((tasksGet a.tasks_by_uuid u).getD [])
        (compute_new_task_data e cfg.copy_fields cfg.field_to_celery_transforms)
        cfg.keep_initial_fields cfg.merge_fields).isEmpty
  all_goals
    simp [ht, hts, hr, hcd, _task_exists, _get_or_create_task, _update_task,
      rootAfter, get_new_event_data, huD]

theorem aggregate_event_new (cfg : EventAggregatorConfig) (a : Agg) (e : TaskDict)
    (u : Value) (hu : dictGet e "uuid" = some u) (ht : u.truthy = true)
    (hex : _task_exists a u = false)
    (hrv : Value.beq (dictGetD e "type" (.str "")) (.str REVOKED_EVENT_TYPE) = false) :
    _aggregate_event cfg a e
      = ([(u, dictUpdate [("uuid", u), ("task_num", Value.int a.new_task_num)]
               (find_data_changes [("uuid", u), ("task_num", Value.int a.new_task_num)]
                 (compute_new_task_data e cfg.copy_fields cfg.field_to_celery_transforms)
                 cfg.keep_initial_fields cfg.merge_fields))],
         ⟨a.new_task_num + 1, rootAfter a e u,
          (fun cd =>
            if cd.isEmpty then
              a.tasks_by_uuid ++ [(u, [("uuid", u), ("task_num", Value.int a.new_task_num)])]
            else tasksSet
              (a.tasks_by_uuid ++ [(u, [("uuid", u), ("task_num", Value.int a.new_task_num)])])
              u
              (dictUpdate [("uuid", u), ("task_num", Value.int a.new_task_num)]
                (find_data_changes [("uuid", u), ("task_num", Value.int a.new_task_num)]
                  (compute_new_task_data e cfg.copy_fields cfg.field_to_celery_transforms)
                  cfg.keep_initial_fields cfg.merge_fields)))
          (find_data_changes [("uuid", u), ("task_num", Value.int a.new_task_num)]
            (compute_new_task_data e cfg.copy_fields cfg.field_to_celery_transforms)
            cfg.keep_initial_fields cfg.merge_fields)⟩) := by
  have huD : dictGetD e "uuid" Value.nul = u := by
    unfold dictGetD; rw [hu]; rfl
  have hts : (tasksGet a.tasks_by_uuid u).isSome = false := by
    unfold _task_exists at hex
    rw [ht] at hex
    simpa using hex
  unfold _aggregate_event
  rw [hu]
  by_cases hr : ((match dictGet e "parent_id" with
      | some .nul => true
      | _ => false)
     && (match a.root_uuid with
         | .nul => true
         | _ => false)) = true
  all_goals
    cases hcd : (find_data_changes [("uuid", u), ("task_num", Value.int a.new_task_num)]
        (compute_new_task_data e cfg.copy_fields cfg.field_to_celery_transforms)
        cfg.keep_initial_fields cfg.merge_fields).isEmpty
  all_goals
    simp [ht, hts, hrv, hr, hcd, _task_exists, _get_or_create_task, _update_task,
      rootAfter, get_new_event_data, huD]

/-! ## Key-tracking lemmas for the normalizer and the change detector -/

theorem typeTransform_get_none (e : TaskDict) (k : String)
    (h1 : k ≠ "state") (h2 : k ≠ "states") : dictGet (typeTransform e) k = none := by
  unfold typeTransform
  cases dictGetD e "type" Value.nul with
  | str t =>
      by_cases hm : t ∈ RUN_STATE_EVENT_TYPES
      · simp [hm, dictGet, Ne.symm h1, Ne.symm h2]
      · simp [hm, dictGet]
  | nul => simp [dictGet]
  | int n => simp [dictGet]
  | bool b => simp [dictGet]
  | list l => simp [dictGet]
  | dict d => simp [dictGet]
  | vset s => simp [dictGet]

theorem longNameTransform_get_none (e : TaskDict) (k : String)
    (h1 : k ≠ "name") : dictGet (longNameTransform e) k = none := by
  unfold longNameTransform
  cases dictGetD e "long_name" Value.nul <;> simp [dictGet, Ne.symm h1]

theorem nameTransform_get_none (e : TaskDict) (k : String)
    (h1 : k ≠ "name") (h2 : k ≠ "long_name") : dictGet (nameTransform e) k = none := by
  unfold nameTransform
  cases dictGetD e "name" Value.nul <;> simp [dictGet, Ne.symm h1, Ne.symm h2]

theorem urlTransform_get_none (e : TaskDict) (k : String)
    (h1 : k ≠ "logs_url") : dictGet (urlTransform e) k = none := by
  unfold urlTransform
  cases dictGet e "url" <;> simp [dictGet, Ne.symm h1]

theorem logFilepathTransform_get_none (e : TaskDict) (k : String)
    (h1 : k ≠ "logs_url") : dictGet (logFilepathTransform e) k = none := by
  unfold logFilepathTransform
  cases dictGet e "log_filepath" <;> simp [dictGet, Ne.symm h1]

theorem localReceivedTransform_get_none (e : TaskDict) (k : String)
    (h1 : k ≠ "first_started") : dictGet (localReceivedTransform e) k = none := by
  unfold localReceivedTransform
  cases dictGet e "local_received" <;> simp [dictGet, Ne.symm h1]

/-- A transform step whose output lacks key `k` leaves lookups at `k`
unchanged. -/
theorem dictGet_transform_step (acc e : TaskDict) (f : String)
    (tr : TaskDict → TaskDict) (k : String) (h : dictGet (tr e) k = none) :
    dictGet (if hasKey e f then dictUpdate acc (tr e) else acc) k = dictGet acc k := by
  by_cases hf : hasKey e f = true
  · simp only [hf, if_true]
    exact dictGet_dictUpdate_none acc (tr e) k h
  · simp only [Bool.not_eq_true] at hf
    simp [hf]

/-- The copy loop of `get_new_event_data` writes only keys from
`copy_fields`. -/
theorem copyFold_get_preserve (e : TaskDict) (k : String) :
    ∀ (fields : List String) (acc : TaskDict), fields.contains k = false →
    dictGet (fields.foldl
      (fun acc field =>
        match dictGet e field with
        | some v => setKey acc field v
        | none => acc) acc) k = dictGet acc k := by
  intro fields
  induction fields with
  | nil => intro acc _; rfl
  | cons f rest ih =>
      intro acc hc
      simp only [List.contains_cons, Bool.or_eq_false_iff] at hc
      have hne : f ≠ k := by
        intro he
        rw [he] at hc
        simp at hc
      simp only [List.foldl]
      rw [ih _ (by simpa using hc.2)]
      cases hg : dictGet e f
      · rfl
      · simp only [dictGet_setKey, if_neg hne]

/-- The default transform table, in `FIELD_CONFIG` order. -/
theorem default_transforms_eq :
    DEFAULT_AGGREGATOR_CONFIG.field_to_celery_transforms
      = [("type", typeTransform), ("long_name", longNameTransform),
         ("name", nameTransform), ("url", urlTransform),
         ("log_filepath", logFilepathTransform),
         ("local_received", localReceivedTransform)] := rfl

theorem default_keep_initial_eq :
    DEFAULT_AGGREGATOR_CONFIG.keep_initial_fields = ["first_started"] := rfl

theorem default_merge_eq :
    DEFAULT_AGGREGATOR_CONFIG.merge_fields = ["states"] := rfl


/-- Keys that the default normalizer can write: the copy fields plus the keys
produced by the transforms. Lookups at any other key yield `none`. -/
theorem compute_new_task_data_get_none (e : TaskDict) (k : String)
    (hc : DEFAULT_AGGREGATOR_CONFIG.copy_fields.contains k = false)
    (h1 : k ≠ "state") (h2 : k ≠ "states") (h3 : k ≠ "name") (h4 : k ≠ "long_name")
    (h5 : k ≠ "logs_url") (h6 : k ≠ "first_started") :
    dictGet (compute_new_task_data e DEFAULT_AGGREGATOR_CONFIG.copy_fields
      DEFAULT_AGGREGATOR_CONFIG.field_to_celery_transforms) k = none := by
  unfold compute_new_task_data
  rw [default_transforms_eq]
  simp only [List.foldl_cons, List.foldl_nil]
  rw [dictGet_transform_step _ _ _ _ _ (localReceivedTransform_get_none e k h6),
    dictGet_transform_step _ _ _ _ _ (logFilepathTransform_get_none e k h5),
    dictGet_transform_step _ _ _ _ _ (urlTransform_get_none e k h5),
    dictGet_transform_step _ _ _ _ _ (nameTransform_get_none e k h3 h4),
    dictGet_transform_step _ _ _ _ _ (longNameTransform_get_none e k h3),
    dictGet_transform_step _ _ _ _ _ (typeTransform_get_none e k h1 h2),
    copyFold_get_preserve e k _ _ hc]
  rfl

/-- The possible shapes of the `states` entry the default normalizer can
produce: absent, or the one-entry list synthesized by the `type` transform. -/
theorem compute_new_task_data_states (e : TaskDict) :
    dictGet (compute_new_task_data e DEFAULT_AGGREGATOR_CONFIG.copy_fields
        DEFAULT_AGGREGATOR_CONFIG.field_to_celery_transforms) "states" = none
    ∨ ∃ s t, dictGet (compute_new_task_data e DEFAULT_AGGREGATOR_CONFIG.copy_fields
        DEFAULT_AGGREGATOR_CONFIG.field_to_celery_transforms) "states"
        = some (Value.list [Value.dict [("state", s), ("timestamp", t)]]) := by
  unfold compute_new_task_data
  rw [default_transforms_eq]
  simp only [List.foldl_cons, List.foldl_nil]
  rw [dictGet_transform_step _ _ _ _ _ (localReceivedTransform_get_none e "states" (by decide)),
    dictGet_transform_step _ _ _ _ _ (logFilepathTransform_get_none e "states" (by decide)),
    dictGet_transform_step _ _ _ _ _ (urlTransform_get_none e "states" (by decide)),
    dictGet_transform_step _ _ _ _ _ (nameTransform_get_none e "states" (by decide) (by decide)),
    dictGet_transform_step _ _ _ _ _ (longNameTransform_get_none e "states" (by decide))]
  have hbase := copyFold_get_preserve e "states" DEFAULT_AGGREGATOR_CONFIG.copy_fields []
    (by decide)
  by_cases hty : hasKey e "type" = true
  · simp only [hty, if_true]
    unfold typeTransform
    split
    · rename_i t heq
      by_cases hm : RUN_STATE_EVENT_TYPES.contains t = true
      · right
        refine ⟨Value.str (event_type_to_task_state t),
          dictGetD e "timestamp" Value.nul, ?_⟩
        rw [if_pos hm]
        simp only [dictUpdate, List.foldl_cons, List.foldl_nil]
        simp [dictGet_setKey]
      · left
        rw [if_neg hm]
        simp only [dictUpdate, List.foldl_nil]
        rw [hbase]
        rfl
    · left
      simp only [dictUpdate, List.foldl_nil]
      rw [hbase]
      rfl
  · simp only [Bool.not_eq_true] at hty
    simp only [hty, Bool.false_eq_true, if_false]
    left
    rw [hbase]
    rfl

theorem dictGet_isSome_of_mem (d : TaskDict) (x : String × Value)
    (h : x ∈ d) : (dictGet d x.1).isSome = true := by
  induction d with
  | nil => simp at h
  | cons kv rest ih =>
      obtain ⟨k0, v0⟩ := kv
      rcases List.mem_cons.mp h with he | hm
      · rw [he]
        simp [dictGet]
      · by_cases hk : k0 = x.1
        · simp [dictGet, hk]
        · simp only [dictGet, hk, if_false]
          exact ih hm

theorem nodupKeys_dictUpdate (d u : TaskDict) (h : NodupKeys d) :
    NodupKeys (dictUpdate d u) :=
  foldl_invariant NodupKeys _ (fun b x hb => nodupKeys_setKey b x.1 x.2 hb) u d h

/-- The `override` fold of `find_data_changes` (also its `merge` fold, which
has the same body) writes only keys of the entries it iterates. -/
theorem fdc_setfold_preserve (task : TaskDict) (k : String) :
    ∀ (l : List (String × Value)) (init : TaskDict), (∀ x ∈ l, x.1 ≠ k) →
    dictGet (l.foldl
      (fun cd kv =>
        if !hasKey task kv.1 || !Value.beq (dictGetD task kv.1 Value.nul) kv.2 then
          setKey cd kv.1 kv.2
        else cd) init) k = dictGet init k := by
  intro l
  induction l with
  | nil => intro init _; rfl
  | cons x rest ih =>
      intro init hx
      simp only [List.foldl_cons]
      rw [ih _ (fun y hy => hx y (List.mem_cons_of_mem x hy))]
      by_cases hc : (!hasKey task x.1 || !Value.beq (dictGetD task x.1 Value.nul) x.2) = true
      · simp only [hc, if_true]
        rw [dictGet_setKey, if_neg (hx x (List.mem_cons_self x rest))]
      · simp only [Bool.not_eq_true] at hc
        simp [hc]

/-- The keep-initial fold of `find_data_changes` leaves key `k` alone if
every iterated field is either a different key or fails the
"new has it and task does not" guard. -/
theorem fdc_keepfold_preserve (task new : TaskDict) (k : String) :
    ∀ (l : List String) (init : TaskDict),
    (∀ x ∈ l, x ≠ k ∨ (hasKey new x && !hasKey task x) = false) →
    dictGet (l.foldl
      (fun cd q =>
        if hasKey new q && !hasKey task q then setKey cd q (dictGetD new q Value.nul)
        else cd) init) k = dictGet init k := by
  intro l
  induction l with
  | nil => intro init _; rfl
  | cons x rest ih =>
      intro init hx
      simp only [List.foldl_cons]
      rw [ih _ (fun y hy => hx y (List.mem_cons_of_mem x hy))]
      rcases hx x (List.mem_cons_self x rest) with hne | hguard
      · by_cases hc : (hasKey new x && !hasKey task x) = true
        · simp only [hc, if_true]
          rw [dictGet_setKey, if_neg hne]
        · simp only [Bool.not_eq_true] at hc
          simp [hc]
      · simp [hguard]

/-- Every key of `deepMergeGo d1 r l` comes from `r` or from `l`. -/
theorem keys_deepMergeGo (d1 : TaskDict) (p : String → Prop) :
    ∀ (l r : TaskDict), (∀ q ∈ r.map Prod.fst, p q) → (∀ y ∈ l, p y.1) →
    ∀ q ∈ (deepMergeGo d1 r l).map Prod.fst, p q := by
  intro l
  induction l with
  | nil =>
      intro r hr _ q hq
      simp only [deepMergeGo] at hq
      exact hr q hq
  | cons x rest ih =>
      intro r hr hl q hq
      obtain ⟨k0, v2⟩ := x
      simp only [deepMergeGo] at hq
      have hstep : ∀ w, ∀ q ∈ (setKey r k0 w).map Prod.fst, p q := by
        intro w q hq'
        rcases mem_keys_setKey r k0 w q hq' with h' | h'
        · exact hr q h'
        · rw [h']
          exact hl (k0, v2) (List.mem_cons_self _ _)
      cases hg : dictGet d1 k0 with
      | some v1 =>
          simp only [hg] at hq
          exact ih _ (hstep _) (fun y hy => hl y (List.mem_cons_of_mem _ hy)) q hq
      | none =>
          simp only [hg] at hq
          exact ih _ (hstep _) (fun y hy => hl y (List.mem_cons_of_mem _ hy)) q hq

theorem mem_filter_keys_contains (d : TaskDict) (keys : List String)
    (x : String × Value) (h : x ∈ d.filter (fun kv => keys.contains kv.1)) :
    x.1 ∈ keys := by
  have := List.of_mem_filter h
  simpa using this

theorem keys_filter_mem (d : TaskDict) (keys : List String) :
    ∀ q ∈ (d.filter (fun kv => keys.contains kv.1)).map Prod.fst, q ∈ keys := by
  intro q hq
  obtain ⟨x, hx, hxq⟩ := List.mem_map.mp hq
  rw [← hxq]
  exact mem_filter_keys_contains d keys x hx

/-- `find_data_changes` never emits a key that is neither in the proposed
update nor a merge field nor a keep-initial field. -/
theorem find_data_changes_get_none (task new : TaskDict) (ki mf : List String)
    (k : String) (hnew : dictGet new k = none) (hki : k ∉ ki) (hmf : k ∉ mf) :
    dictGet (find_data_changes task new ki mf) k = none := by
  have hmerged : ∀ x ∈ deepMergeGo (task.filter (fun kv => mf.contains kv.1))
      (task.filter (fun kv => mf.contains kv.1))
      (new.filter (fun kv => mf.contains kv.1)), x.1 ≠ k := by
    intro x hx
    have hx1 : x.1 ∈ mf := by
      refine keys_deepMergeGo _ (fun q => q ∈ mf) _ _ ?_ ?_ x.1
        (List.mem_map_of_mem Prod.fst hx)
      · exact keys_filter_mem task mf
      · intro y hy
        exact mem_filter_keys_contains new mf y hy
    intro he
    rw [he] at hx1
    exact hmf hx1
  have hkeep : ∀ x ∈ ki, x ≠ k ∨ (hasKey new x && !hasKey task x) = false := by
    intro x hx
    left
    intro he
    rw [he] at hx
    exact hki hx
  have hover : ∀ x ∈ new.filter (fun kv => !(ki ++ mf).contains kv.1), x.1 ≠ k := by
    intro x hx
    intro he
    have hmem : x ∈ new := List.mem_of_mem_filter hx
    have := dictGet_isSome_of_mem new x hmem
    rw [he, hnew] at this
    simp at this
  unfold find_data_changes _deep_merge_keys _deep_merge
  rw [fdc_setfold_preserve task k _ _ hmerged,
    fdc_keepfold_preserve task new k _ _ hkeep,
    fdc_setfold_preserve task k _ _ hover]
  rfl

/-- A keep-initial, non-merge key already present on the task is never
emitted by `find_data_changes` (the write-once mechanism). -/
theorem find_data_changes_keep_initial_none (task new : TaskDict)
    (ki mf : List String) (k : String)
    (hin : k ∈ ki) (hmf : k ∉ mf) (htask : hasKey task k = true) :
    dictGet (find_data_changes task new ki mf) k = none := by
  have hmerged : ∀ x ∈ deepMergeGo (task.filter (fun kv => mf.contains kv.1))
      (task.filter (fun kv => mf.contains kv.1))
      (new.filter (fun kv => mf.contains kv.1)), x.1 ≠ k := by
    intro x hx
    have hx1 : x.1 ∈ mf := by
      refine keys_deepMergeGo _ (fun q => q ∈ mf) _ _ ?_ ?_ x.1
        (List.mem_map_of_mem Prod.fst hx)
      · exact keys_filter_mem task mf
      · intro y hy
        exact mem_filter_keys_contains new mf y hy
    intro he
    rw [he] at hx1
    exact hmf hx1
  have hkeep : ∀ x ∈ ki, x ≠ k ∨ (hasKey new x && !hasKey task x) = false := by
    intro x _
    by_cases he : x = k
    · right
      rw [he, htask]
      simp
    · exact Or.inl he
  have hover : ∀ x ∈ new.filter (fun kv => !(ki ++ mf).contains kv.1), x.1 ≠ k := by
    intro x hx
    intro he
    have := List.of_mem_filter hx
    rw [he] at this
    simp only [Bool.not_eq_true'] at this
    have hk : k ∈ ki ++ mf := List.mem_append_left mf hin
    have : k ∉ ki ++ mf := by simpa using this
    exact this hk
  unfold find_data_changes _deep_merge_keys _deep_merge
  rw [fdc_setfold_preserve task k _ _ hmerged,
    fdc_keepfold_preserve task new k _ _ hkeep,
    fdc_setfold_preserve task k _ _ hover]
  rfl

/-! ## Claims -/

/-- Claim C1: for the single-event input
`[{uuid:"A", parent_id:null, type:"task-started", timestamp:10, local_received:100}]`
fed to `aggregate_events` on a fresh aggregator with the default field-policy
configuration, the store afterwards holds exactly one task record equal (as a
Python dict, i.e. up to entry order) to
`{uuid:"A", task_num:1, parent_id:null, type:"task-started",
state:"task-started", states:[{state:"task-started", timestamp:10}],
first_started:100}`, and `root_uuid` equals `"A"`. -/
theorem c1_single_started_event :
    (aggregate_events DEFAULT_AGGREGATOR_CONFIG initAgg
        [[("uuid", Value.str "A"), ("parent_id", Value.nul),
          ("type", Value.str "task-started"), ("timestamp", Value.int 10),
          ("local_received", Value.int 100)]]).2.tasks_by_uuid.map Prod.fst
      = [Value.str "A"]
    ∧ Value.dictBeq
        (((aggregate_events DEFAULT_AGGREGATOR_CONFIG initAgg
            [[("uuid", Value.str "A"), ("parent_id", Value.nul),
              ("type", Value.str "task-started"), ("timestamp", Value.int 10),
              ("local_received", Value.int 100)]]).2.tasks_by_uuid.map Prod.snd).headD [])
        [("uuid", Value.str "A"), ("task_num", Value.int 1),
         ("parent_id", Value.nul), ("type", Value.str "task-started"),
         ("state", Value.str "task-started"),
         ("states", Value.list [Value.dict [("state", Value.str "task-started"),
            ("timestamp", Value.int 10)]]),
         ("first_started", Value.int 100)] = true
    ∧ (aggregate_events DEFAULT_AGGREGATOR_CONFIG initAgg
        [[("uuid", Value.str "A"), ("parent_id", Value.nul),
          ("type", Value.str "task-started"), ("timestamp", Value.int 10),
          ("local_received", Value.int 100)]]).2.root_uuid = Value.str "A" :=
  ⟨rfl, rfl, rfl⟩

/-- Claim C2: an event whose uuid key is absent or falsy, or whose uuid is
unknown to the store while its type equals (Python `==`) `task-revoked`, is
dropped: `_aggregate_event` returns the empty mapping and leaves the store,
`new_task_num` and `root_uuid` unchanged. -/
theorem c2_malformed_or_unknown_revoke_dropped (cfg : EventAggregatorConfig)
    (a : Agg) (e : TaskDict)
    (h : dictGet e "uuid" = none
       ∨ (∃ u, dictGet e "uuid" = some u ∧ u.truthy = false)
       ∨ (∃ u, dictGet e "uuid" = some u ∧ _task_exists a u = false
            ∧ Value.beq (dictGetD e "type" (.str "")) (.str REVOKED_EVENT_TYPE) = true)) :
    (_aggregate_event cfg a e).1 = []
    ∧ (_aggregate_event cfg a e).2.tasks_by_uuid = a.tasks_by_uuid
    ∧ (_aggregate_event cfg a e).2.new_task_num = a.new_task_num
    ∧ (_aggregate_event cfg a e).2.root_uuid = a.root_uuid := by
  rw [aggregate_event_reject cfg a e h]
  exact ⟨rfl, rfl, rfl, rfl⟩

/-- Witness for C2, at the spec's seed scenario
`[{uuid:"B", type:"task-revoked"}]` on a fresh aggregator. -/
theorem c2_malformed_or_unknown_revoke_dropped_witness :
    (_aggregate_event DEFAULT_AGGREGATOR_CONFIG initAgg
        [("uuid", Value.str "B"), ("type", Value.str "task-revoked")]).1 = []
    ∧ (_aggregate_event DEFAULT_AGGREGATOR_CONFIG initAgg
        [("uuid", Value.str "B"), ("type", Value.str "task-revoked")]).2.tasks_by_uuid
      = initAgg.tasks_by_uuid
    ∧ (_aggregate_event DEFAULT_AGGREGATOR_CONFIG initAgg
        [("uuid", Value.str "B"), ("type", Value.str "task-revoked")]).2.new_task_num
      = initAgg.new_task_num
    ∧ (_aggregate_event DEFAULT_AGGREGATOR_CONFIG initAgg
        [("uuid", Value.str "B"), ("type", Value.str "task-revoked")]).2.root_uuid
      = initAgg.root_uuid :=
  c2_malformed_or_unknown_revoke_dropped DEFAULT_AGGREGATOR_CONFIG initAgg
    [("uuid", Value.str "B"), ("type", Value.str "task-revoked")]
    (Or.inr (Or.inr ⟨Value.str "B", rfl, rfl, rfl⟩))

/-- Claim C7: `are_all_tasks_complete` is true exactly when the root is
complete and the incomplete-task list is empty; in particular a false
`is_root_complete` forces a false `are_all_tasks_complete`. -/
theorem c7_all_tasks_complete_iff (a : Agg) :
    (are_all_tasks_complete a = true
      ↔ (is_root_complete a = true ∧ _get_incomplete_tasks a = []))
    ∧ (is_root_complete a = false → are_all_tasks_complete a = false) := by
  unfold are_all_tasks_complete
  cases h : is_root_complete a
  · simp [h]
  · simp [h, List.length_eq_zero]

/-- Witness for C7 at the fresh aggregator, whose root is not complete. -/
theorem c7_all_tasks_complete_iff_witness :
    is_root_complete initAgg = false ∧ are_all_tasks_complete initAgg = false :=
  ⟨rfl, (c7_all_tasks_complete_iff initAgg).2 rfl⟩

/-- Claim C8: for
`[{uuid:"C", parent_id:null, type:"task-started"},
  {uuid:"C", type:"firex-revoke-complete"}, {uuid:"C", type:"task-succeeded"}]`
the final record's `state` is `task-succeeded` (the last state event wins),
while `states` holds exactly three entries in arrival order with states
`task-started`, `task-revoked`, `task-succeeded` — the firex-revoke-complete
event canonicalized to `task-revoked`. -/
theorem c8_firex_revoke_complete_canonicalized :
    dictGet (((aggregate_events DEFAULT_AGGREGATOR_CONFIG initAgg
        [[("uuid", Value.str "C"), ("parent_id", Value.nul),
          ("type", Value.str "task-started")],
         [("uuid", Value.str "C"), ("type", Value.str "firex-revoke-complete")],
         [("uuid", Value.str "C"), ("type", Value.str "task-succeeded")]]
      ).2.tasks_by_uuid.map Prod.snd).headD []) "state"
      = some (Value.str "task-succeeded")
    ∧ dictGet (((aggregate_events DEFAULT_AGGREGATOR_CONFIG initAgg
        [[("uuid", Value.str "C"), ("parent_id", Value.nul),
          ("type", Value.str "task-started")],
         [("uuid", Value.str "C"), ("type", Value.str "firex-revoke-complete")],
         [("uuid", Value.str "C"), ("type", Value.str "task-succeeded")]]
      ).2.tasks_by_uuid.map Prod.snd).headD []) "states"
      = some (Value.list
          [Value.dict [("state", Value.str "task-started"), ("timestamp", Value.nul)],
           Value.dict [("state", Value.str "task-revoked"), ("timestamp", Value.nul)],
           Value.dict [("state", Value.str "task-succeeded"), ("timestamp", Value.nul)]]) :=
  ⟨rfl, rfl⟩

/-- Claim C10: an accepted event for an existing uuid whose computed delta is
empty still yields `{uuid: {}}` — the uuid is present in the result, mapped to
an empty change-set — and `aggregate_events` on that single-event batch maps
the uuid to an empty mapping as well. -/
theorem c10_empty_delta_yields_empty_changeset (cfg : EventAggregatorConfig)
    (a : Agg) (e : TaskDict) (u : Value)
    (hu : dictGet e "uuid" = some u) (ht : u.truthy = true)
    (hex : _task_exists a u = true)
    (hdelta : find_data_changes ((tasksGet a.tasks_by_uuid u).getD [])
        (compute_new_task_data e cfg.copy_fields cfg.field_to_celery_transforms)
        cfg.keep_initial_fields cfg.merge_fields = []) :
    (_aggregate_event cfg a e).1 = [(u, [])]
    ∧ (aggregate_events cfg a [e]).1 = [(u, [])] := by
  have h := aggregate_event_existing cfg a e u hu ht hex
  rw [hdelta] at h
  have hsingle : aggregate_events cfg a [e]
      = ((_aggregate_event cfg a e).1.foldl
          (fun (m : List (Value × TaskDict)) kv =>
            match tasksGet m kv.1 with
            | some cur => tasksSet m kv.1 (dictUpdate cur kv.2)
            | none => m ++ [(kv.1, dictUpdate [] kv.2)]) [],
        (_aggregate_event cfg a e).2) := rfl
  constructor
  · rw [h]
  · rw [hsingle, h]
    simp [tasksGet, dictUpdate]

/-- Witness for C10: feeding `{uuid:"A"}` twice; the second occurrence finds
the task and changes nothing. -/
theorem c10_empty_delta_yields_empty_changeset_witness :
    (_aggregate_event DEFAULT_AGGREGATOR_CONFIG
        (aggregate_events DEFAULT_AGGREGATOR_CONFIG initAgg
          [[("uuid", Value.str "A")]]).2
        [("uuid", Value.str "A")]).1 = [(Value.str "A", [])]
    ∧ (aggregate_events DEFAULT_AGGREGATOR_CONFIG
        (aggregate_events DEFAULT_AGGREGATOR_CONFIG initAgg
          [[("uuid", Value.str "A")]]).2
        [[("uuid", Value.str "A")]]).1 = [(Value.str "A", [])] :=
  c10_empty_delta_yields_empty_changeset DEFAULT_AGGREGATOR_CONFIG
    (aggregate_events DEFAULT_AGGREGATOR_CONFIG initAgg [[("uuid", Value.str "A")]]).2
    [("uuid", Value.str "A")] (Value.str "A") rfl rfl rfl rfl


/-- Claim C9: `generate_incomplete_events` synthesizes one event per record of
the incomplete-task list; the i-th event carries the i-th record's uuid, type
`task-completed` when the record's state is in `COMPLETE_RUNSTATES` and
`task-incomplete` otherwise, and — when the record lacks (is falsy in)
`actual_runtime` — `actual_runtime = now − (first_started or now)` (so
`now − first_started` for a nonzero integer `first_started`, and `0` when
`first_started` is absent). The store is never modified (the operation is a
pure function of the aggregator state in this embedding, as in the source).
In particular, for a store holding `{uuid:"F", first_started:1000}` and clock
`1050`, it returns exactly
`[{uuid:"F", type:"task-incomplete", actual_runtime:50}]`. -/
theorem c9_generate_incomplete_events :
    (∀ (a : Agg) (now : Int),
      (generate_incomplete_events a now).length = (_get_incomplete_tasks a).length)
    ∧ (∀ (a : Agg) (now : Int) (i : Nat) (t ev : TaskDict),
      (_get_incomplete_tasks a).get? i = some t →
      (generate_incomplete_events a now).get? i = some ev →
        dictGet ev "uuid" = some (dictGetD t "uuid" Value.nul)
        ∧ dictGet ev "type" = some (Value.str
            (match dictGetD t "state" Value.nul with
             | .str s => if COMPLETE_RUNSTATES.contains s then "task-completed"
                         else "task-incomplete"
             | _ => "task-incomplete"))
        ∧ ((dictGetD t "actual_runtime" Value.nul).truthy = false →
            ∀ f : Int, dictGet t "first_started" = some (Value.int f) →
              dictGet ev "actual_runtime"
                = some (Value.int (now - (if f ≠ 0 then f else now))))
        ∧ ((dictGetD t "actual_runtime" Value.nul).truthy = false →
            dictGet t "first_started" = none →
              dictGet ev "actual_runtime" = some (Value.int 0))
        ∧ ((dictGetD t "actual_runtime" Value.nul).truthy = true →
            dictGet ev "actual_runtime" = none))
    ∧ generate_incomplete_events
        (Agg.mk 2 Value.nul
          [(Value.str "F", [("uuid", Value.str "F"), ("first_started", Value.int 1000)])])
        1050
      = [[("uuid", Value.str "F"), ("type", Value.str "task-incomplete"),
          ("actual_runtime", Value.int 50)]] := by
  refine ⟨?_, ?_, rfl⟩
  · intro a now
    unfold generate_incomplete_events
    exact List.length_map _ _
  · intro a now i t ev ht hev
    have hev' : ev = (fun incomplete_task =>
        let event_type : String :=
          match dictGetD incomplete_task "state" Value.nul with
          | .str s => if COMPLETE_RUNSTATES.contains s then "task-completed"
                      else "task-incomplete"
          | _ => "task-incomplete"
        let new_event : TaskDict :=
          [("uuid", dictGetD incomplete_task "uuid" Value.nul),
           ("type", Value.str event_type)]
        if !(dictGetD incomplete_task "actual_runtime" Value.nul).truthy then
          let fs := dictGetD incomplete_task "first_started" Value.nul
          let task_runtime : Int := now - (if fs.truthy then fs.toIntD now else now)
          setKey new_event "actual_runtime" (Value.int task_runtime)
        else new_event) t := by
      unfold generate_incomplete_events at hev
      rw [List.get?_map, ht] at hev
      simpa using hev.symm
    subst hev'
    refine ⟨?_, ?_, ?_, ?_, ?_⟩
    · cases har : (dictGetD t "actual_runtime" Value.nul).truthy <;>
        simp [har, dictGet, setKey]
    · cases hst : dictGetD t "state" Value.nul <;>
        cases har : (dictGetD t "actual_runtime" Value.nul).truthy <;>
          simp [hst, har, dictGet, setKey]
    · intro har f hf
      have hD : dictGetD t "first_started" Value.nul = Value.int f := by
        unfold dictGetD
        rw [hf]
        rfl
      simp only [har, Bool.not_false, if_true, hD]
      by_cases hf0 : f = 0
      · simp [hf0, dictGet, setKey, Value.truthy, Value.toIntD]
      · simp [hf0, dictGet, setKey, Value.truthy, Value.toIntD]
    · intro har hf
      have hD : dictGetD t "first_started" Value.nul = Value.nul := by
        unfold dictGetD
        rw [hf]
        rfl
      simp only [har, Bool.not_false, if_true, hD]
      simp [dictGet, setKey, Value.truthy]
    · intro har
      simp [har, dictGet, setKey]

/-- Witness for C9: applying the pointwise description at the spec's seed
store (`{uuid:"F", first_started:1000}`, clock 1050). -/
theorem c9_generate_incomplete_events_witness :
    dictGet ((generate_incomplete_events
        (Agg.mk 2 Value.nul
          [(Value.str "F", [("uuid", Value.str "F"), ("first_started", Value.int 1000)])])
        1050).headD []) "type" = some (Value.str "task-incomplete")
    ∧ dictGet ((generate_incomplete_events
        (Agg.mk 2 Value.nul
          [(Value.str "F", [("uuid", Value.str "F"), ("first_started", Value.int 1000)])])
        1050).headD []) "actual_runtime" = some (Value.int 50) := by
  obtain ⟨_, hty, har, _, _⟩ :=
    c9_generate_incomplete_events.2.1
      (Agg.mk 2 Value.nul
        [(Value.str "F", [("uuid", Value.str "F"), ("first_started", Value.int 1000)])])
      1050 0 [("uuid", Value.str "F"), ("first_started", Value.int 1000)]
      ((generate_incomplete_events
        (Agg.mk 2 Value.nul
          [(Value.str "F", [("uuid", Value.str "F"), ("first_started", Value.int 1000)])])
        1050).headD []) rfl rfl
  refine ⟨hty, ?_⟩
  have := har rfl 1000 rfl
  simpa using this

/-! ## Store well-formedness and further helper lemmas -/

/-- Every record in the store has no duplicate keys — true of any Python
dict, and preserved by the aggregator. -/
def WFStore (a : Agg) : Prop := ∀ kv ∈ a.tasks_by_uuid, NodupKeys kv.2

theorem tasksGet_mem (ts : List (Value × TaskDict)) (u : Value) (t : TaskDict)
    (h : tasksGet ts u = some t) : ∃ k, (k, t) ∈ ts := by
  induction ts with
  | nil => simp [tasksGet] at h
  | cons kv rest ih =>
      obtain ⟨k0, t0⟩ := kv
      by_cases hb : Value.beq k0 u = true
      · simp only [tasksGet, hb, if_true, Option.some.injEq] at h
        exact ⟨k0, by simp [h]⟩
      · simp only [tasksGet, hb, if_false] at h
        obtain ⟨k, hk⟩ := ih h
        exact ⟨k, List.mem_cons_of_mem _ hk⟩

theorem mem_tasksSet (ts : List (Value × TaskDict)) (u : Value) (t : TaskDict)
    (kv : Value × TaskDict) (h : kv ∈ tasksSet ts u t) : kv ∈ ts ∨ kv.2 = t := by
  induction ts with
  | nil => simp [tasksSet] at h
  | cons kv0 rest ih =>
      obtain ⟨k0, t0⟩ := kv0
      by_cases hb : Value.beq k0 u = true
      · simp only [tasksSet, hb, if_true] at h
        rcases List.mem_cons.mp h with he | hm
        · right; rw [he]
        · left; exact List.mem_cons_of_mem _ hm
      · simp only [tasksSet, hb, if_false] at h
        rcases List.mem_cons.mp h with he | hm
        · left; rw [he]; exact List.mem_cons_self _ _
        · rcases ih hm with h' | h'
          · left; exact List.mem_cons_of_mem _ h'
          · right; exact h'

theorem find_data_changes_nodup (task new : TaskDict) (ki mf : List String) :
    NodupKeys (find_data_changes task new ki mf) := by
  unfold find_data_changes
  apply foldl_invariant NodupKeys
  · intro b x hb
    by_cases hc : (!hasKey task x.1 || !Value.beq (dictGetD task x.1 Value.nul) x.2) = true
    · simp only [hc, if_true]
      exact nodupKeys_setKey b x.1 x.2 hb
    · simp only [Bool.not_eq_true] at hc
      simpa [hc] using hb
  apply foldl_invariant NodupKeys
  · intro b x hb
    by_cases hc : (hasKey new x && !hasKey task x) = true
    · simp only [hc, if_true]
      exact nodupKeys_setKey b x _ hb
    · simp only [Bool.not_eq_true] at hc
      simpa [hc] using hb
  apply foldl_invariant NodupKeys
  · intro b x hb
    by_cases hc : (!hasKey task x.1 || !Value.beq (dictGetD task x.1 Value.nul) x.2) = true
    · simp only [hc, if_true]
      exact nodupKeys_setKey b x.1 x.2 hb
    · simp only [Bool.not_eq_true] at hc
      simpa [hc] using hb
  exact List.nodup_nil

theorem compute_new_task_data_nodup (e : TaskDict) (cf : List String)
    (tr : List (String × (TaskDict → TaskDict))) :
    NodupKeys (compute_new_task_data e cf tr) := by
  unfold compute_new_task_data
  apply foldl_invariant NodupKeys
  · intro b x hb
    by_cases hc : hasKey e x.1 = true
    · simp only [hc, if_true]
      exact nodupKeys_dictUpdate b (x.2 e) hb
    · simp only [Bool.not_eq_true] at hc
      simpa [hc] using hb
  apply foldl_invariant NodupKeys
  · intro b x hb
    cases hg : dictGet e x
    · simpa [hg] using hb
    · simp only [hg]
      exact nodupKeys_setKey b x _ hb
  exact List.nodup_nil

/-- A key becomes present in the store only through an accepted event whose
uuid matches it; such an event cannot be a revoke for an unknown uuid. -/
theorem aggregate_event_keys (cfg : EventAggregatorConfig) (a : Agg) (e : TaskDict)
    (w : Value)
    (h : (tasksGet (_aggregate_event cfg a e).2.tasks_by_uuid w).isSome = true) :
    (tasksGet a.tasks_by_uuid w).isSome = true
    ∨ (∃ u, dictGet e "uuid" = some u ∧ Value.beq u w = true
         ∧ Value.beq (dictGetD e "type" (.str "")) (.str REVOKED_EVENT_TYPE) = false) := by
  cases hu : dictGet e "uuid" with
  | none =>
      rw [aggregate_event_reject cfg a e (Or.inl hu)] at h
      exact Or.inl h
  | some u =>
      by_cases ht : u.truthy = true
      · by_cases hex : _task_exists a u = true
        · rw [aggregate_event_existing cfg a e u hu ht hex] at h
          simp only at h
          left
          by_cases hcd : (find_data_changes ((tasksGet a.tasks_by_uuid u).getD [])
              (compute_new_task_data e cfg.copy_fields cfg.field_to_celery_transforms)
              cfg.keep_initial_fields cfg.merge_fields).isEmpty = true
          · rwa [if_pos hcd] at h
          · rw [if_neg hcd, tasksGet_isSome_tasksSet] at h
            exact h
        · simp only [Bool.not_eq_true] at hex
          by_cases hrv : Value.beq (dictGetD e "type" (.str ""))
              (.str REVOKED_EVENT_TYPE) = true
          · rw [aggregate_event_reject cfg a e (Or.inr (Or.inr ⟨u, hu, hex, hrv⟩))] at h
            exact Or.inl h
          · simp only [Bool.not_eq_true] at hrv
            rw [aggregate_event_new cfg a e u hu ht hex hrv] at h
            simp only at h
            have happ : (tasksGet (a.tasks_by_uuid
                ++ [(u, [("uuid", u), ("task_num", Value.int a.new_task_num)])]) w).isSome
                = true → _ := tasksGet_append_isSome a.tasks_by_uuid u
              [("uuid", u), ("task_num", Value.int a.new_task_num)] w
            by_cases hcd : (find_data_changes
                [("uuid", u), ("task_num", Value.int a.new_task_num)]
                (compute_new_task_data e cfg.copy_fields cfg.field_to_celery_transforms)
                cfg.keep_initial_fields cfg.merge_fields).isEmpty = true
            · rw [if_pos hcd] at h
              rcases happ h with h' | h'
              · exact Or.inl h'
              · exact Or.inr ⟨u, rfl, h', hrv⟩
            · rw [if_neg hcd, tasksGet_isSome_tasksSet] at h
              rcases happ h with h' | h'
              · exact Or.inl h'
              · exact Or.inr ⟨u, rfl, h', hrv⟩
      · simp only [Bool.not_eq_true] at ht
        rw [aggregate_event_reject cfg a e (Or.inr (Or.inl ⟨u, hu, ht⟩))] at h
        exact Or.inl h

theorem aggregate_events_keys (cfg : EventAggregatorConfig) (events : List TaskDict) :
    ∀ (a : Agg) (w : Value),
    (tasksGet (aggregate_events cfg a events).2.tasks_by_uuid w).isSome = true →
    (tasksGet a.tasks_by_uuid w).isSome = true
    ∨ (∃ e ∈ events, ∃ u, dictGet e "uuid" = some u ∧ Value.beq u w = true
         ∧ Value.beq (dictGetD e "type" (.str "")) (.str REVOKED_EVENT_TYPE) = false) := by
  induction events with
  | nil =>
      intro a w h
      rw [aggregate_events_state] at h
      exact Or.inl h
  | cons e rest ih =>
      intro a w h
      rw [aggregate_events_state] at h
      simp only [List.foldl_cons] at h
      rw [← aggregate_events_state] at h
      rcases ih _ w h with h' | ⟨e', he', hrest⟩
      · rcases aggregate_event_keys cfg a e w h' with h'' | h''
        · exact Or.inl h''
        · exact Or.inr ⟨e, List.mem_cons_self _ _, h''⟩
      · exact Or.inr ⟨e', List.mem_cons_of_mem _ he', hrest⟩

/-- Claim C3: a task record exists in the store only if some non-revoke event
with a matching uuid was observed; equivalently, a revoke event for a uuid
never seen before leaves the aggregator (store, counter, root) unchanged. -/
theorem c3_task_exists_only_after_non_revoke :
    (∀ (cfg : EventAggregatorConfig) (events : List TaskDict) (w : Value),
      (tasksGet (aggregate_events cfg initAgg events).2.tasks_by_uuid w).isSome = true →
      ∃ e ∈ events, ∃ u, dictGet e "uuid" = some u ∧ Value.beq u w = true
        ∧ Value.beq (dictGetD e "type" (.str "")) (.str REVOKED_EVENT_TYPE) = false)
    ∧ (∀ (cfg : EventAggregatorConfig) (a : Agg) (e : TaskDict) (u : Value),
      dictGet e "uuid" = some u → _task_exists a u = false →
      Value.beq (dictGetD e "type" (.str "")) (.str REVOKED_EVENT_TYPE) = true →
      _aggregate_event cfg a e = ([], a)) := by
  constructor
  · intro cfg events w h
    rcases aggregate_events_keys cfg events initAgg w h with h' | h'
    · simp [initAgg, tasksGet] at h'
    · exact h'
  · intro cfg a e u hu hex hrv
    exact aggregate_event_reject cfg a e (Or.inr (Or.inr ⟨u, hu, hex, hrv⟩))

/-- Witness for C3: after a run containing only a started event for `"A"`,
the record for `"A"` traces back to a non-revoke event, and the revoke-first
scenario for `"B"` leaves the fresh aggregator unchanged. -/
theorem c3_task_exists_only_after_non_revoke_witness :
    (∃ e ∈ [[("uuid", Value.str "A"), ("type", Value.str "task-started")]],
      ∃ u, dictGet e "uuid" = some u ∧ Value.beq u (Value.str "A") = true
        ∧ Value.beq (dictGetD e "type" (.str "")) (.str REVOKED_EVENT_TYPE) = false)
    ∧ _aggregate_event DEFAULT_AGGREGATOR_CONFIG initAgg
        [("uuid", Value.str "B"), ("type", Value.str "task-revoked")] = ([], initAgg) :=
  ⟨c3_task_exists_only_after_non_revoke.1 DEFAULT_AGGREGATOR_CONFIG
      [[("uuid", Value.str "A"), ("type", Value.str "task-started")]]
      (Value.str "A") rfl,
   c3_task_exists_only_after_non_revoke.2 DEFAULT_AGGREGATOR_CONFIG initAgg
      [("uuid", Value.str "B"), ("type", Value.str "task-revoked")]
      (Value.str "B") rfl rfl rfl⟩

theorem tasksSet_getD_self (ts : List (Value × TaskDict)) (u : Value) :
    tasksSet ts u ((tasksGet ts u).getD []) = ts := by
  induction ts with
  | nil => rfl
  | cons kv rest ih =>
      obtain ⟨k0, t0⟩ := kv
      by_cases hb : Value.beq k0 u = true
      · simp [tasksSet, tasksGet, hb]
      · simp [tasksSet, tasksGet, hb, ih]

theorem tasksGet_append_none (ts : List (Value × TaskDict)) (u : Value) (t : TaskDict)
    (h : tasksGet ts u = none) :
    tasksGet (ts ++ [(u, t)]) u
      = if Value.beq u u = true then some t else none := by
  induction ts with
  | nil => simp [tasksGet]
  | cons kv rest ih =>
      obtain ⟨k0, t0⟩ := kv
      by_cases hb : Value.beq k0 u = true
      · simp [tasksGet, hb] at h
      · simp only [tasksGet, hb, if_false] at h
        simp only [List.cons_append, tasksGet, hb, if_false]
        exact ih h

/-- The store after an accepted event for an existing uuid, with the
`changed_data`-empty case folded into the general `tasksSet` form. -/
theorem aggregate_event_store_existing (cfg : EventAggregatorConfig) (a : Agg)
    (e : TaskDict) (u : Value) (hu : dictGet e "uuid" = some u)
    (ht : u.truthy = true) (hex : _task_exists a u = true) :
    (_aggregate_event cfg a e).2.tasks_by_uuid
      = tasksSet a.tasks_by_uuid u
          (dictUpdate ((tasksGet a.tasks_by_uuid u).getD [])
            (find_data_changes ((tasksGet a.tasks_by_uuid u).getD [])
              (compute_new_task_data e cfg.copy_fields cfg.field_to_celery_transforms)
              cfg.keep_initial_fields cfg.merge_fields)) := by
  rw [aggregate_event_existing cfg a e u hu ht hex]
  simp only
  by_cases hcd : (find_data_changes ((tasksGet a.tasks_by_uuid u).getD [])
      (compute_new_task_data e cfg.copy_fields cfg.field_to_celery_transforms)
      cfg.keep_initial_fields cfg.merge_fields).isEmpty = true
  · rw [if_pos hcd]
    have : find_data_changes ((tasksGet a.tasks_by_uuid u).getD [])
        (compute_new_task_data e cfg.copy_fields cfg.field_to_celery_transforms)
        cfg.keep_initial_fields cfg.merge_fields = [] := by
      simpa [List.isEmpty_iff] using hcd
    rw [this]
    show a.tasks_by_uuid = tasksSet a.tasks_by_uuid u ((tasksGet a.tasks_by_uuid u).getD [])
    rw [tasksSet_getD_self]
  · rw [if_neg hcd]

/-- The store after an accepted event for a fresh uuid: insert then update,
again with the empty-delta case folded into the `tasksSet` form. -/
theorem aggregate_event_store_new (cfg : EventAggregatorConfig) (a : Agg)
    (e : TaskDict) (u : Value) (hu : dictGet e "uuid" = some u)
    (ht : u.truthy = true) (hex : _task_exists a u = false)
    (hrv : Value.beq (dictGetD e "type" (.str "")) (.str REVOKED_EVENT_TYPE) = false) :
    (_aggregate_event cfg a e).2.tasks_by_uuid
      = tasksSet
          (a.tasks_by_uuid ++ [(u, [("uuid", u), ("task_num", Value.int a.new_task_num)])]) u
          (dictUpdate [("uuid", u), ("task_num", Value.int a.new_task_num)]
            (find_data_changes [("uuid", u), ("task_num", Value.int a.new_task_num)]
              (compute_new_task_data e cfg.copy_fields cfg.field_to_celery_transforms)
              cfg.keep_initial_fields cfg.merge_fields))
    ∧ (_aggregate_event cfg a e).2.new_task_num = a.new_task_num + 1 := by
  rw [aggregate_event_new cfg a e u hu ht hex hrv]
  refine ⟨?_, rfl⟩
  simp only
  have hnone : tasksGet a.tasks_by_uuid u = none := by
    unfold _task_exists at hex
    rw [ht] at hex
    simp only [Bool.not_true, Bool.false_eq_true, if_false] at hex
    cases hg : tasksGet a.tasks_by_uuid u
    · rfl
    · rw [hg] at hex; simp at hex
  by_cases hcd : (find_data_changes [("uuid", u), ("task_num", Value.int a.new_task_num)]
      (compute_new_task_data e cfg.copy_fields cfg.field_to_celery_transforms)
      cfg.keep_initial_fields cfg.merge_fields).isEmpty = true
  · rw [if_pos hcd]
    have hcd' : find_data_changes [("uuid", u), ("task_num", Value.int a.new_task_num)]
        (compute_new_task_data e cfg.copy_fields cfg.field_to_celery_transforms)
        cfg.keep_initial_fields cfg.merge_fields = [] := by
      simpa [List.isEmpty_iff] using hcd
    rw [hcd']
    show a.tasks_by_uuid ++ _ = tasksSet _ u [("uuid", u), ("task_num", Value.int a.new_task_num)]
    by_cases hbu : Value.beq u u = true
    · have hget := tasksGet_append_none a.tasks_by_uuid u
        [("uuid", u), ("task_num", Value.int a.new_task_num)] hnone
      rw [if_pos hbu] at hget
      have hstep : tasksSet (a.tasks_by_uuid
            ++ [(u, [("uuid", u), ("task_num", Value.int a.new_task_num)])]) u
            [("uuid", u), ("task_num", Value.int a.new_task_num)]
          = tasksSet (a.tasks_by_uuid
              ++ [(u, [("uuid", u), ("task_num", Value.int a.new_task_num)])]) u
              ((tasksGet (a.tasks_by_uuid
                ++ [(u, [("uuid", u), ("task_num", Value.int a.new_task_num)])]) u).getD []) := by
        rw [hget]
        rfl
      rw [hstep, tasksSet_getD_self]
    · have hget := tasksGet_append_none a.tasks_by_uuid u
        [("uuid", u), ("task_num", Value.int a.new_task_num)] hnone
      rw [if_neg hbu] at hget
      rw [tasksSet_of_none _ _ _ hget]
  · rw [if_neg hcd]

/-- Aggregating an event preserves store well-formedness. -/
theorem aggregate_event_WF (cfg : EventAggregatorConfig) (a : Agg) (e : TaskDict)
    (hwf : WFStore a) : WFStore (_aggregate_event cfg a e).2 := by
  have hnodup_upd : ∀ (base cd : TaskDict), NodupKeys base → NodupKeys (dictUpdate base cd) :=
    fun base cd h => nodupKeys_dictUpdate base cd h
  have hmatch_nodup : ∀ u, NodupKeys ((tasksGet a.tasks_by_uuid u).getD []) := by
    intro u
    cases hg : tasksGet a.tasks_by_uuid u
    · exact List.nodup_nil
    · obtain ⟨k, hk⟩ := tasksGet_mem _ _ _ hg
      simpa using hwf _ hk
  cases hu : dictGet e "uuid" with
  | none =>
      rw [aggregate_event_reject cfg a e (Or.inl hu)]
      exact hwf
  | some u =>
      by_cases ht : u.truthy = true
      · by_cases hex : _task_exists a u = true
        · intro kv hkv
          rw [aggregate_event_store_existing cfg a e u hu ht hex] at hkv
          rcases mem_tasksSet _ _ _ _ hkv with hm | hm
          · exact hwf _ hm
          · rw [hm]
            exact hnodup_upd _ _ (hmatch_nodup u)
        · simp only [Bool.not_eq_true] at hex
          by_cases hrv : Value.beq (dictGetD e "type" (.str ""))
              (.str REVOKED_EVENT_TYPE) = true
          · rw [aggregate_event_reject cfg a e (Or.inr (Or.inr ⟨u, hu, hex, hrv⟩))]
            exact hwf
          · simp only [Bool.not_eq_true] at hrv
            intro kv hkv
            rw [(aggregate_event_store_new cfg a e u hu ht hex hrv).1] at hkv
            rcases mem_tasksSet _ _ _ _ hkv with hm | hm
            · rcases List.mem_append.mp hm with hm' | hm'
              · exact hwf _ hm'
              · simp only [List.mem_singleton] at hm'
                rw [hm']
                simp [NodupKeys]
            · rw [hm]
              apply hnodup_upd
              simp [NodupKeys]
      · simp only [Bool.not_eq_true] at ht
        rw [aggregate_event_reject cfg a e (Or.inr (Or.inl ⟨u, hu, ht⟩))]
        exact hwf

/-- Generic per-event preservation of a positionwise record relation under
the default configuration: every record position either keeps its record or
has it updated by `dictUpdate` with the event's computed delta. -/
theorem aggregate_event_entry_preserve (a : Agg) (e : TaskDict)
    (P : TaskDict → TaskDict → Prop) (hrefl : ∀ t, P t t) (hwf : WFStore a)
    (hupd : ∀ task : TaskDict, NodupKeys task →
      P task (dictUpdate task
        (find_data_changes task
          (compute_new_task_data e DEFAULT_AGGREGATOR_CONFIG.copy_fields
            DEFAULT_AGGREGATOR_CONFIG.field_to_celery_transforms)
          DEFAULT_AGGREGATOR_CONFIG.keep_initial_fields
          DEFAULT_AGGREGATOR_CONFIG.merge_fields))) :
    ∀ i t, (a.tasks_by_uuid.map Prod.snd).get? i = some t →
    ∃ t', (((_aggregate_event DEFAULT_AGGREGATOR_CONFIG a e).2.tasks_by_uuid.map
            Prod.snd).get? i = some t')
      ∧ P t t' := by
  intro i t htm
  cases hu : dictGet e "uuid" with
  | none =>
      rw [aggregate_event_reject _ a e (Or.inl hu)]
      exact ⟨t, htm, hrefl t⟩
  | some u =>
      by_cases ht : u.truthy = true
      · by_cases hex : _task_exists a u = true
        · rw [aggregate_event_store_existing _ a e u hu ht hex]
          have hmatch : P ((tasksGet a.tasks_by_uuid u).getD [])
              (dictUpdate ((tasksGet a.tasks_by_uuid u).getD [])
                (find_data_changes ((tasksGet a.tasks_by_uuid u).getD [])
                  (compute_new_task_data e DEFAULT_AGGREGATOR_CONFIG.copy_fields
                    DEFAULT_AGGREGATOR_CONFIG.field_to_celery_transforms)
                  DEFAULT_AGGREGATOR_CONFIG.keep_initial_fields
                  DEFAULT_AGGREGATOR_CONFIG.merge_fields)) := by
            apply hupd
            cases hg : tasksGet a.tasks_by_uuid u
            · exact List.nodup_nil
            · obtain ⟨k, hk⟩ := tasksGet_mem _ _ _ hg
              simpa using hwf _ hk
          exact tasksSet_entryRel P hrefl _ a.tasks_by_uuid u hmatch i t htm
        · simp only [Bool.not_eq_true] at hex
          by_cases hrv : Value.beq (dictGetD e "type" (.str ""))
              (.str REVOKED_EVENT_TYPE) = true
          · rw [aggregate_event_reject _ a e (Or.inr (Or.inr ⟨u, hu, hex, hrv⟩))]
            exact ⟨t, htm, hrefl t⟩
          · simp only [Bool.not_eq_true] at hrv
            rw [(aggregate_event_store_new _ a e u hu ht hex hrv).1]
            have hnone : tasksGet a.tasks_by_uuid u = none := by
              unfold _task_exists at hex
              rw [ht] at hex
              simp only [Bool.not_true, Bool.false_eq_true, if_false] at hex
              cases hg : tasksGet a.tasks_by_uuid u
              · rfl
              · rw [hg] at hex; simp at hex
            have hlt : i < (a.tasks_by_uuid.map Prod.snd).length := by
              rcases List.get?_eq_some.mp htm with ⟨h, _⟩
              exact h
            have happ : ((a.tasks_by_uuid
                ++ [(u, [("uuid", u), ("task_num", Value.int a.new_task_num)])]).map
                  Prod.snd).get? i = some t := by
              rw [List.map_append]
              rw [List.get?_append (by simpa using hlt)]
              exact htm
            by_cases hbu : Value.beq u u = true
            · have hget := tasksGet_append_none a.tasks_by_uuid u
                [("uuid", u), ("task_num", Value.int a.new_task_num)] hnone
              rw [if_pos hbu] at hget
              have hmatch : P ((tasksGet (a.tasks_by_uuid
                  ++ [(u, [("uuid", u), ("task_num", Value.int a.new_task_num)])]) u).getD [])
                  (dictUpdate ((tasksGet (a.tasks_by_uuid
                    ++ [(u, [("uuid", u), ("task_num", Value.int a.new_task_num)])]) u).getD [])
                    (find_data_changes ((tasksGet (a.tasks_by_uuid
                      ++ [(u, [("uuid", u), ("task_num", Value.int a.new_task_num)])]) u).getD [])
                      (compute_new_task_data e DEFAULT_AGGREGATOR_CONFIG.copy_fields
                        DEFAULT_AGGREGATOR_CONFIG.field_to_celery_transforms)
                      DEFAULT_AGGREGATOR_CONFIG.keep_initial_fields
                      DEFAULT_AGGREGATOR_CONFIG.merge_fields)) := by
                apply hupd
                rw [hget]
                simp [NodupKeys]
              have := tasksSet_entryRel P hrefl _
                (a.tasks_by_uuid ++ [(u, [("uuid", u), ("task_num", Value.int a.new_task_num)])])
                u hmatch i t happ
              rw [hget] at this
              simpa using this
            · have hget := tasksGet_append_none a.tasks_by_uuid u
                [("uuid", u), ("task_num", Value.int a.new_task_num)] hnone
              rw [if_neg hbu] at hget
              rw [tasksSet_of_none _ _ _ hget]
              exact ⟨t, happ, hrefl t⟩
      · simp only [Bool.not_eq_true] at ht
        rw [aggregate_event_reject _ a e (Or.inr (Or.inl ⟨u, hu, ht⟩))]
        exact ⟨t, htm, hrefl t⟩

/-- Sequence version of `aggregate_event_entry_preserve`, threading the store
well-formedness invariant and composing the relation. -/
theorem aggregate_events_entry_preserve (events : List TaskDict)
    (P : TaskDict → TaskDict → Prop) (hrefl : ∀ t, P t t)
    (htrans : ∀ x y z, P x y → P y z → P x z)
    (hupd : ∀ e ∈ events, ∀ task : TaskDict, NodupKeys task →
      P task (dictUpdate task
        (find_data_changes task
          (compute_new_task_data e DEFAULT_AGGREGATOR_CONFIG.copy_fields
            DEFAULT_AGGREGATOR_CONFIG.field_to_celery_transforms)
          DEFAULT_AGGREGATOR_CONFIG.keep_initial_fields
          DEFAULT_AGGREGATOR_CONFIG.merge_fields))) :
    ∀ (a : Agg), WFStore a →
    ∀ i t, (a.tasks_by_uuid.map Prod.snd).get? i = some t →
    ∃ t', (((aggregate_events DEFAULT_AGGREGATOR_CONFIG a events).2.tasks_by_uuid.map
            Prod.snd).get? i = some t')
      ∧ P t t' := by
  induction events with
  | nil =>
      intro a _ i t htm
      rw [aggregate_events_state]
      exact ⟨t, htm, hrefl t⟩
  | cons e rest ih =>
      intro a hwf i t htm
      obtain ⟨t1, ht1, hP1⟩ := aggregate_event_entry_preserve a e P hrefl hwf
        (hupd e (List.mem_cons_self _ _)) i t htm
      have hwf1 : WFStore (_aggregate_event DEFAULT_AGGREGATOR_CONFIG a e).2 :=
        aggregate_event_WF _ a e hwf
      obtain ⟨t2, ht2, hP2⟩ := ih (fun e' he' => hupd e' (List.mem_cons_of_mem _ he'))
        (_aggregate_event DEFAULT_AGGREGATOR_CONFIG a e).2 hwf1 i t1 ht1
      refine ⟨t2, ?_, htrans _ _ _ hP1 hP2⟩
      rw [aggregate_events_state] at ht2 ⊢
      simpa using ht2

/-- Claim C4: `first_started` is write-once under the default configuration —
once a stored record carries it, no later aggregated event changes it (for
every event sequence and store position); in particular, for two events that
both set it, aggregating `[e1, e2]` keeps the value `aggregate([e1])`
assigned. Stores are well-formed (key-nodup records), as Python dicts are. -/
theorem c4_first_started_write_once :
    (∀ (events : List TaskDict) (a : Agg), WFStore a →
      ∀ i t v, (a.tasks_by_uuid.map Prod.snd).get? i = some t →
        dictGet t "first_started" = some v →
        ∃ t', (((aggregate_events DEFAULT_AGGREGATOR_CONFIG a events).2.tasks_by_uuid.map
                Prod.snd).get? i = some t')
          ∧ dictGet t' "first_started" = some v)
    ∧ (∀ (e1 e2 : TaskDict) i t v,
        ((aggregate_events DEFAULT_AGGREGATOR_CONFIG initAgg [e1]).2.tasks_by_uuid.map
          Prod.snd).get? i = some t →
        dictGet t "first_started" = some v →
        ∃ t', (((aggregate_events DEFAULT_AGGREGATOR_CONFIG initAgg
                [e1, e2]).2.tasks_by_uuid.map Prod.snd).get? i = some t')
          ∧ dictGet t' "first_started" = some v) := by
  have hupd : ∀ (e : TaskDict) (task : TaskDict), NodupKeys task →
      ∀ v, dictGet task "first_started" = some v →
      dictGet (dictUpdate task
        (find_data_changes task
          (compute_new_task_data e DEFAULT_AGGREGATOR_CONFIG.copy_fields
            DEFAULT_AGGREGATOR_CONFIG.field_to_celery_transforms)
          DEFAULT_AGGREGATOR_CONFIG.keep_initial_fields
          DEFAULT_AGGREGATOR_CONFIG.merge_fields)) "first_started" = some v := by
    intro e task _ v hv
    have hin : "first_started" ∈ DEFAULT_AGGREGATOR_CONFIG.keep_initial_fields := by
      rw [default_keep_initial_eq]
      simp
    have hmf : "first_started" ∉ DEFAULT_AGGREGATOR_CONFIG.merge_fields := by
      rw [default_merge_eq]
      simp
    have htask : hasKey task "first_started" = true := by
      unfold hasKey
      rw [hv]
      rfl
    have hcd := find_data_changes_keep_initial_none task
      (compute_new_task_data e DEFAULT_AGGREGATOR_CONFIG.copy_fields
        DEFAULT_AGGREGATOR_CONFIG.field_to_celery_transforms)
      DEFAULT_AGGREGATOR_CONFIG.keep_initial_fields
      DEFAULT_AGGREGATOR_CONFIG.merge_fields
      "first_started" hin hmf htask
    rw [dictGet_dictUpdate_none _ _ _ hcd]
    exact hv
  have main : ∀ (events : List TaskDict) (a : Agg), WFStore a →
      ∀ i t v, (a.tasks_by_uuid.map Prod.snd).get? i = some t →
        dictGet t "first_started" = some v →
        ∃ t', (((aggregate_events DEFAULT_AGGREGATOR_CONFIG a events).2.tasks_by_uuid.map
                Prod.snd).get? i = some t')
          ∧ dictGet t' "first_started" = some v := by
    intro events a hwf i t v htm hv
    obtain ⟨t', ht', hP⟩ := aggregate_events_entry_preserve events
      (fun x y => ∀ w, dictGet x "first_started" = some w →
        dictGet y "first_started" = some w)
      (fun x w hw => hw)
      (fun x y z h1 h2 w hw => h2 w (h1 w hw))
      (fun e _ task hnd w hw => hupd e task hnd w hw)
      a hwf i t htm
    exact ⟨t', ht', hP v hv⟩
  refine ⟨main, ?_⟩
  intro e1 e2 i t v htm hv
  have hwf1 : WFStore (aggregate_events DEFAULT_AGGREGATOR_CONFIG initAgg [e1]).2 := by
    rw [aggregate_events_state]
    simp only [List.foldl_cons, List.foldl_nil]
    exact aggregate_event_WF _ initAgg e1 (by intro kv hkv; simp [initAgg] at hkv)
  obtain ⟨t', ht', hv'⟩ := main [e2] _ hwf1 i t v htm hv
  refine ⟨t', ?_, hv'⟩
  rw [aggregate_events_state] at ht' ⊢
  simp only [List.foldl_cons, List.foldl_nil] at ht' ⊢
  rw [aggregate_events_state] at ht'
  simpa using ht'

/-- Witness for C4: `{uuid:"A", local_received:100}` then
`{uuid:"A", local_received:999}`; the stored `first_started` stays 100. -/
theorem c4_first_started_write_once_witness :
    dictGet (((aggregate_events DEFAULT_AGGREGATOR_CONFIG initAgg
        [[("uuid", Value.str "A"), ("local_received", Value.int 100)],
         [("uuid", Value.str "A"), ("local_received", Value.int 999)]]
      ).2.tasks_by_uuid.map Prod.snd).headD []) "first_started"
      = some (Value.int 100) := by
  obtain ⟨t', ht', hv⟩ := c4_first_started_write_once.2
    [("uuid", Value.str "A"), ("local_received", Value.int 100)]
    [("uuid", Value.str "A"), ("local_received", Value.int 999)]
    0
    [("uuid", Value.str "A"), ("task_num", Value.int 1), ("first_started", Value.int 100)]
    (Value.int 100) rfl rfl
  have h0 : ((aggregate_events DEFAULT_AGGREGATOR_CONFIG initAgg
      [[("uuid", Value.str "A"), ("local_received", Value.int 100)],
       [("uuid", Value.str "A"), ("local_received", Value.int 999)]]
    ).2.tasks_by_uuid.map Prod.snd).get? 0
      = some [("uuid", Value.str "A"), ("task_num", Value.int 1),
              ("first_started", Value.int 100)] := rfl
  have hc' := Option.some.inj (ht'.symm.trans h0)
  have hhead : (((aggregate_events DEFAULT_AGGREGATOR_CONFIG initAgg
      [[("uuid", Value.str "A"), ("local_received", Value.int 100)],
       [("uuid", Value.str "A"), ("local_received", Value.int 999)]]
    ).2.tasks_by_uuid.map Prod.snd).headD [])
      = [("uuid", Value.str "A"), ("task_num", Value.int 1),
         ("first_started", Value.int 100)] := rfl
  rw [hhead, ← hc']
  exact hv

/-- The `task_num` field of a record never appears in a computed delta under
the default configuration. -/
theorem delta_task_num_none (e task : TaskDict) :
    dictGet (find_data_changes task
      (compute_new_task_data e DEFAULT_AGGREGATOR_CONFIG.copy_fields
        DEFAULT_AGGREGATOR_CONFIG.field_to_celery_transforms)
      DEFAULT_AGGREGATOR_CONFIG.keep_initial_fields
      DEFAULT_AGGREGATOR_CONFIG.merge_fields) "task_num" = none := by
  apply find_data_changes_get_none
  · apply compute_new_task_data_get_none
    · decide
    all_goals decide
  · rw [default_keep_initial_eq]
    simp
  · rw [default_merge_eq]
    simp

/-- One aggregation step preserves the `task_num` invariant: the counter is
one past the store size and the record at position `i` carries
`task_num = i + 1`. -/
theorem aggregate_event_task_num_inv (a : Agg) (e : TaskDict)
    (hcount : a.new_task_num = (a.tasks_by_uuid.length : Int) + 1)
    (hnum : ∀ i t, (a.tasks_by_uuid.map Prod.snd).get? i = some t →
      dictGet t "task_num" = some (Value.int ((i : Int) + 1))) :
    (_aggregate_event DEFAULT_AGGREGATOR_CONFIG a e).2.new_task_num
      = (((_aggregate_event DEFAULT_AGGREGATOR_CONFIG a e).2.tasks_by_uuid.length : Int) + 1)
    ∧ ∀ i t, (((_aggregate_event DEFAULT_AGGREGATOR_CONFIG a e).2.tasks_by_uuid.map
          Prod.snd).get? i = some t) →
        dictGet t "task_num" = some (Value.int ((i : Int) + 1)) := by
  have hP : ∀ task : TaskDict, dictGet (dictUpdate task
      (find_data_changes task
        (compute_new_task_data e DEFAULT_AGGREGATOR_CONFIG.copy_fields
          DEFAULT_AGGREGATOR_CONFIG.field_to_celery_transforms)
        DEFAULT_AGGREGATOR_CONFIG.keep_initial_fields
        DEFAULT_AGGREGATOR_CONFIG.merge_fields)) "task_num" = dictGet task "task_num" :=
    fun task => dictGet_dictUpdate_none _ _ _ (delta_task_num_none e task)
  cases hu : dictGet e "uuid" with
  | none =>
      rw [aggregate_event_reject _ a e (Or.inl hu)]
      exact ⟨hcount, hnum⟩
  | some u =>
      by_cases ht : u.truthy = true
      · by_cases hex : _task_exists a u = true
        · have hst := aggregate_event_store_existing DEFAULT_AGGREGATOR_CONFIG a e u hu ht hex
          have hcu : (_aggregate_event DEFAULT_AGGREGATOR_CONFIG a e).2.new_task_num
              = a.new_task_num := by
            rw [aggregate_event_existing _ a e u hu ht hex]
          constructor
          · rw [hcu, hst, tasksSet_length]
            exact hcount
          · intro i t' ht'
            rw [hst] at ht'
            have hlen : i < (a.tasks_by_uuid.map Prod.snd).length := by
              rcases List.get?_eq_some.mp ht' with ⟨hl, _⟩
              simpa [tasksSet_length] using hl
            have hold := List.get?_eq_get hlen
            obtain ⟨t'', ht'', hPt⟩ := tasksSet_entryRel
              (fun x y => dictGet y "task_num" = dictGet x "task_num")
              (fun _ => rfl) _ a.tasks_by_uuid u (hP _) i _ hold
            rw [hst] at *
            have : t'' = t' := Option.some.inj (ht''.symm.trans ht')
            rw [← this, hPt]
            exact hnum i _ hold
        · simp only [Bool.not_eq_true] at hex
          by_cases hrv : Value.beq (dictGetD e "type" (.str ""))
              (.str REVOKED_EVENT_TYPE) = true
          · rw [aggregate_event_reject _ a e (Or.inr (Or.inr ⟨u, hu, hex, hrv⟩))]
            exact ⟨hcount, hnum⟩
          · simp only [Bool.not_eq_true] at hrv
            obtain ⟨hst, hcu⟩ := aggregate_event_store_new DEFAULT_AGGREGATOR_CONFIG
              a e u hu ht hex hrv
            have happnum : ∀ i t, ((a.tasks_by_uuid
                ++ [(u, [("uuid", u), ("task_num", Value.int a.new_task_num)])]).map
                  Prod.snd).get? i = some t →
                dictGet t "task_num" = some (Value.int ((i : Int) + 1)) := by
              intro i t hti
              rw [List.map_append] at hti
              by_cases hi : i < (a.tasks_by_uuid.map Prod.snd).length
              · rw [List.get?_append hi] at hti
                exact hnum i t hti
              · have hlen : i < (a.tasks_by_uuid.map Prod.snd).length + 1 := by
                  rcases List.get?_eq_some.mp hti with ⟨hl, _⟩
                  simpa using hl
                have hieq : i = (a.tasks_by_uuid.map Prod.snd).length := by omega
                subst hieq
                have hconcat : ((a.tasks_by_uuid.map Prod.snd)
                    ++ ([(u, [("uuid", u), ("task_num", Value.int a.new_task_num)])].map
                      Prod.snd)).get? (a.tasks_by_uuid.map Prod.snd).length
                    = some [("uuid", u), ("task_num", Value.int a.new_task_num)] := by
                  simpa using List.get?_concat_length (a.tasks_by_uuid.map Prod.snd)
                    [("uuid", u), ("task_num", Value.int a.new_task_num)]
                rw [hconcat] at hti
                have : t = [("uuid", u), ("task_num", Value.int a.new_task_num)] :=
                  (Option.some.inj hti).symm
                rw [this, hcount]
                simp [dictGet]
            constructor
            · rw [hcu, hst, tasksSet_length]
              simp only [List.length_append, List.length_singleton]
              rw [hcount]
              push_cast
              ring
            · intro i t' ht'
              rw [hst] at ht'
              have hnone : tasksGet a.tasks_by_uuid u = none := by
                unfold _task_exists at hex
                rw [ht] at hex
                simp only [Bool.not_true, Bool.false_eq_true, if_false] at hex
                cases hg : tasksGet a.tasks_by_uuid u
                · rfl
                · rw [hg] at hex; simp at hex
              by_cases hbu : Value.beq u u = true
              · have hget := tasksGet_append_none a.tasks_by_uuid u
                  [("uuid", u), ("task_num", Value.int a.new_task_num)] hnone
                rw [if_pos hbu] at hget
                have hgd : (tasksGet (a.tasks_by_uuid
                    ++ [(u, [("uuid", u), ("task_num", Value.int a.new_task_num)])])
                      u).getD []
                    = [("uuid", u), ("task_num", Value.int a.new_task_num)] := by
                  rw [hget]; rfl
                have hlen : i < ((a.tasks_by_uuid
                    ++ [(u, [("uuid", u), ("task_num", Value.int a.new_task_num)])]).map
                      Prod.snd).length := by
                  rcases List.get?_eq_some.mp ht' with ⟨hl, _⟩
                  simpa [tasksSet_length] using hl
                have hold := List.get?_eq_get hlen
                obtain ⟨t'', ht'', hPt⟩ := tasksSet_entryRel
                  (fun x y => dictGet y "task_num" = dictGet x "task_num")
                  (fun _ => rfl)
                  (find_data_changes [("uuid", u), ("task_num", Value.int a.new_task_num)]
                    (compute_new_task_data e DEFAULT_AGGREGATOR_CONFIG.copy_fields
                      DEFAULT_AGGREGATOR_CONFIG.field_to_celery_transforms)
                    DEFAULT_AGGREGATOR_CONFIG.keep_initial_fields
                    DEFAULT_AGGREGATOR_CONFIG.merge_fields)
                  (a.tasks_by_uuid
                    ++ [(u, [("uuid", u), ("task_num", Value.int a.new_task_num)])])
                  u (by rw [hgd]; exact hP _) i _ hold
                rw [hgd] at ht''
                have heq : t'' = t' := Option.some.inj (ht''.symm.trans ht')
                rw [← heq, hPt]
                exact happnum i _ hold
              · have hget := tasksGet_append_none a.tasks_by_uuid u
                  [("uuid", u), ("task_num", Value.int a.new_task_num)] hnone
                rw [if_neg hbu] at hget
                rw [tasksSet_of_none _ _ _ hget] at ht'
                exact happnum i t' ht'
      · simp only [Bool.not_eq_true] at ht
        rw [aggregate_event_reject _ a e (Or.inr (Or.inl ⟨u, hu, ht⟩))]
        exact ⟨hcount, hnum⟩

/-- C6: after aggregating any event sequence from a fresh aggregator under the
default configuration, the stored records in store (= insertion) order carry
`task_num` values `1, 2, ..., n`: the record at position `i` has
`task_num = i + 1`, so the values form exactly the contiguous set
`{1, ..., n}` assigned in insertion order. -/
theorem c6_task_num_dense_insertion_order (events : List TaskDict)
    (i : Nat) (t : TaskDict)
    (ht : (Agg.tasks_by_uuid
        (aggregate_events DEFAULT_AGGREGATOR_CONFIG initAgg events).2
      |>.map Prod.snd).get? i = some t) :
    dictGet t "task_num" = some (Value.int ((i : Int) + 1)) := by
  have hinv := foldl_invariant
    (fun a : Agg => a.new_task_num = (a.tasks_by_uuid.length : Int) + 1
      ∧ ∀ i t, (a.tasks_by_uuid.map Prod.snd).get? i = some t →
          dictGet t "task_num" = some (Value.int ((i : Int) + 1)))
    (fun s e => (_aggregate_event DEFAULT_AGGREGATOR_CONFIG s e).2)
    (fun a e h => aggregate_event_task_num_inv a e h.1 h.2)
    events initAgg ⟨by simp [initAgg], by intro j s h; simp [initAgg] at h⟩
  rw [aggregate_events_state] at ht
  exact hinv.2 i t ht

/-- Witness for C6: two fresh tasks "A" then "B"; the record at store
position 1 is B's and holds `task_num = 2`. -/
theorem c6_task_num_dense_insertion_order_witness :
    dictGet [("uuid", Value.str "B"), ("task_num", Value.int 2)] "task_num"
      = some (Value.int 2) :=
  c6_task_num_dense_insertion_order
    [[("uuid", Value.str "A")], [("uuid", Value.str "B")]] 1
    [("uuid", Value.str "B"), ("task_num", Value.int 2)] rfl

/-- Filtering a dict to a key it does not contain yields the empty dict. -/
theorem filter_single_of_get_none (d : TaskDict) (k : String)
    (h : dictGet d k = none) :
    d.filter (fun kv => ([k] : List String).contains kv.1) = [] := by
  rw [List.filter_eq_nil]
  intro kv hkv
  have hs := dictGet_isSome_of_mem d kv hkv
  intro hc
  have hk : kv.1 = k := by simpa using hc
  rw [hk, h] at hs
  simp at hs

/-- Under `NodupKeys`, filtering a dict to a key it maps to `v` yields the
one-entry dict `[(k, v)]`. -/
theorem filter_single_of_get_some (d : TaskDict) (k : String) (v : Value)
    (hnd : NodupKeys d) (h : dictGet d k = some v) :
    d.filter (fun kv => ([k] : List String).contains kv.1) = [(k, v)] := by
  induction d with
  | nil => simp [dictGet] at h
  | cons kv rest ih =>
      obtain ⟨k0, v0⟩ := kv
      unfold NodupKeys at hnd
      simp only [List.map_cons, List.nodup_cons] at hnd
      simp only [dictGet] at h
      by_cases hk : k0 = k
      · rw [if_pos hk] at h
        have hv : v0 = v := Option.some.inj h
        have hrest : dictGet rest k = none := by
          apply dictGet_eq_none_of_not_mem_keys
          intro hm
          exact hnd.1 (by rw [hk]; exact hm)
        have hr0 : rest.filter (fun kv => ([k] : List String).contains kv.1) = [] :=
          filter_single_of_get_none rest k hrest
        simp only [List.filter_cons]
        rw [if_pos (by simp [hk]), hr0, hk, hv]
      · rw [if_neg hk] at h
        simp only [List.filter_cons]
        rw [if_neg (by simp [hk]), ih hnd.2 h]

/-- The delta at `"states"` under the default field policy: against a task
whose `states` is the list `xs`, `find_data_changes` either omits `states`
or maps it to `xs ++ ys` for some suffix `ys` — the previous sequence is
kept as a prefix, never truncated or reordered. -/
theorem find_data_changes_states (task new : TaskDict) (xs : List Value)
    (hnd : NodupKeys task) (hndnew : NodupKeys new)
    (hxs : dictGet task "states" = some (Value.list xs))
    (hnew : dictGet new "states" = none
      ∨ ∃ d0, dictGet new "states" = some (Value.list [d0])) :
    dictGet (find_data_changes task new ["first_started"] ["states"]) "states" = none
    ∨ ∃ ys, dictGet (find_data_changes task new ["first_started"] ["states"]) "states"
        = some (Value.list (xs ++ ys)) := by
  have htf : task.filter (fun kv => (["states"] : List String).contains kv.1)
      = [("states", Value.list xs)] :=
    filter_single_of_get_some task "states" (Value.list xs) hnd hxs
  have hkeep : ∀ x ∈ (["first_started"] : List String),
      x ≠ "states" ∨ (hasKey new x && !hasKey task x) = false := by
    intro x hx
    left
    intro he
    rw [he] at hx
    simp at hx
  have hover : ∀ x ∈ new.filter
      (fun kv => !((["first_started"] : List String) ++ ["states"]).contains kv.1),
      x.1 ≠ "states" := by
    intro x hx he
    have := List.of_mem_filter hx
    rw [he] at this
    simp at this
  unfold find_data_changes _deep_merge_keys _deep_merge
  rw [htf]
  rcases hnew with hnone | ⟨d0, hsome⟩
  · rw [filter_single_of_get_none new "states" hnone]
    have hmg : deepMergeGo [("states", Value.list xs)] [("states", Value.list xs)] []
        = [("states", Value.list xs)] := rfl
    rw [hmg, List.foldl_cons, List.foldl_nil]
    simp only []
    by_cases hc : (!hasKey task "states"
        || !Value.beq (dictGetD task "states" Value.nul) (Value.list xs)) = true
    · right
      refine ⟨[], ?_⟩
      rw [if_pos hc, dictGet_setKey, if_pos rfl]
      simp
    · left
      rw [if_neg hc, fdc_keepfold_preserve task new "states" _ _ hkeep,
        fdc_setfold_preserve task "states" _ _ hover]
      rfl
  · rw [filter_single_of_get_some new "states" (Value.list [d0])
      hndnew hsome]
    have hmg : deepMergeGo [("states", Value.list xs)] [("states", Value.list xs)]
        [("states", Value.list [d0])]
        = [("states", Value.list (xs ++ [d0]))] := rfl
    rw [hmg, List.foldl_cons, List.foldl_nil]
    simp only []
    by_cases hc : (!hasKey task "states"
        || !Value.beq (dictGetD task "states" Value.nul) (Value.list (xs ++ [d0]))) = true
    · right
      refine ⟨[d0], ?_⟩
      rw [if_pos hc, dictGet_setKey, if_pos rfl]
    · left
      rw [if_neg hc, fdc_keepfold_preserve task new "states" _ _ hkeep,
        fdc_setfold_preserve task "states" _ _ hover]
      rfl

/-- C5: `states` grows only by appending. For any well-formed store and any
further event batch, a stored record whose `states` is the list `xs` evolves,
at the same store position, into a record whose `states` is `xs ++ ys` for
some suffix `ys` — never truncated or reordered. Moreover, for the two-event
E scenario (task-started at 1, task-succeeded at 2) the final `states` is
exactly the two canonical entries in order. -/
theorem c5_states_append_only :
    (∀ (events : List TaskDict) (a : Agg), WFStore a →
      ∀ i t, (a.tasks_by_uuid.map Prod.snd).get? i = some t →
      ∀ xs, dictGet t "states" = some (Value.list xs) →
      ∃ t' ys, ((aggregate_events DEFAULT_AGGREGATOR_CONFIG a events).2.tasks_by_uuid.map
          Prod.snd).get? i = some t'
        ∧ dictGet t' "states" = some (Value.list (xs ++ ys)))
    ∧ dictGet (((aggregate_events DEFAULT_AGGREGATOR_CONFIG initAgg
        [[("uuid", Value.str "E"), ("type", Value.str "task-started"),
          ("timestamp", Value.int 1)],
         [("uuid", Value.str "E"), ("type", Value.str "task-succeeded"),
          ("timestamp", Value.int 2)]]).2.tasks_by_uuid.map Prod.snd).getD 0 [])
        "states"
      = some (Value.list
          [Value.dict [("state", Value.str "task-started"), ("timestamp", Value.int 1)],
           Value.dict [("state", Value.str "task-succeeded"),
             ("timestamp", Value.int 2)]]) := by
  constructor
  · intro events a hwf i t htm xs hxs
    have hpres := aggregate_events_entry_preserve events
      (fun t t' => ∀ xs, dictGet t "states" = some (Value.list xs) →
        ∃ ys, dictGet t' "states" = some (Value.list (xs ++ ys)))
      (fun t xs hx => ⟨[], by rw [hx]; simp⟩)
      (fun x y z hxy hyz xs hx => by
        obtain ⟨ys, hy⟩ := hxy xs hx
        obtain ⟨ys', hz⟩ := hyz (xs ++ ys) hy
        exact ⟨ys ++ ys', by rw [hz, List.append_assoc]⟩)
      (fun e _ task hnd xs hx => by
        rw [default_keep_initial_eq, default_merge_eq]
        have hnew := compute_new_task_data_states e
        rcases find_data_changes_states task
            (compute_new_task_data e DEFAULT_AGGREGATOR_CONFIG.copy_fields
              DEFAULT_AGGREGATOR_CONFIG.field_to_celery_transforms) xs hnd
            (compute_new_task_data_nodup e _ _) hx
            (by
              rcases hnew with h | ⟨s, ts, h⟩
              · exact Or.inl h
              · exact Or.inr ⟨Value.dict [("state", s), ("timestamp", ts)], h⟩)
          with hf | ⟨ys, hf⟩
        · exact ⟨[], by rw [dictGet_dictUpdate_none _ _ _ hf, hx]; simp⟩
        · exact ⟨ys, dictGet_dictUpdate_some _ _ _ _
            (find_data_changes_nodup _ _ _ _) hf⟩)
      a hwf i t htm
    obtain ⟨t', ht', hP⟩ := hpres
    obtain ⟨ys, hys⟩ := hP xs hxs
    exact ⟨t', ys, ht', hys⟩
  · rfl

/-- Witness for C5: a store holding task E with one `states` entry, then a
`task-succeeded` event for E; the record keeps its entry as a prefix. -/
theorem c5_states_append_only_witness :
    ∃ t' ys, ((aggregate_events DEFAULT_AGGREGATOR_CONFIG
        ⟨2, Value.str "E",
         [(Value.str "E",
           [("uuid", Value.str "E"), ("task_num", Value.int 1),
            ("states", Value.list
              [Value.dict [("state", Value.str "task-started"),
                ("timestamp", Value.int 1)]])])]⟩
        [[("uuid", Value.str "E"), ("type", Value.str "task-succeeded"),
          ("timestamp", Value.int 2)]]).2.tasks_by_uuid.map Prod.snd).get? 0 = some t'
      ∧ dictGet t' "states"
        = some (Value.list
            ([Value.dict [("state", Value.str "task-started"),
               ("timestamp", Value.int 1)]] ++ ys)) :=
  c5_states_append_only.1
    [[("uuid", Value.str "E"), ("type", Value.str "task-succeeded"),
      ("timestamp", Value.int 2)]]
    ⟨2, Value.str "E",
     [(Value.str "E",
       [("uuid", Value.str "E"), ("task_num", Value.int 1),
        ("states", Value.list
          [Value.dict [("state", Value.str "task-started"),
            ("timestamp", Value.int 1)]])])]⟩
    (by
      intro kv hkv
      rw [List.mem_singleton] at hkv
      subst hkv
      show (([("uuid", Value.str "E"), ("task_num", Value.int 1),
        ("states", Value.list
          [Value.dict [("state", Value.str "task-started"),
            ("timestamp", Value.int 1)]])] : TaskDict).map Prod.fst).Nodup
      decide)
    0 _ rfl
    [Value.dict [("state", Value.str "task-started"), ("timestamp", Value.int 1)]]
    rfl
